import Mathlib

set_option maxRecDepth 8000

/-!
Shallow embedding of the OnionTravel backend's currency-rate resolution layer
(`app/services/currency.py`), the expense/budget statistics engine
(`app/services/expense_service.py`) and the trip budget derivation
(`app/services/trip.py`), together with theorems settling the frozen claims.

Modelling conventions:
* calendar dates are integers (day numbers); `(d2 - d1).days` is `d2 - d1`;
* `Decimal` and Python `float` arithmetic are both idealised as `ℚ`;
* a SQLAlchemy table is a `List` of row structures; `query(...).first()` is
  `List.find?`, `.all()` is `List.filter`, and
  `order_by(date.desc()).first()` picks the first row carrying the maximal
  date (row order in the list models the database's unspecified row order);
* Python truthiness is modelled explicitly where the source relies on it
  (`if rate:` treats both `None` and `Decimal(0)` as false).
-/

/-- A row of the `exchange_rates` table (`app/models/exchange_rate.py`).
The table carries a uniqueness constraint on
`(from_currency, to_currency, date)`. -/
structure ExchangeRate where
  fromCurrency : String
  toCurrency : String
  rate : ℚ
  date : ℤ
  fetchedAt : ℤ
deriving DecidableEq, Repr

/-- The rate store: the `exchange_rates` table as a list of rows. -/
abbrev RateStore := List ExchangeRate

/-- The columns covered by the table's uniqueness constraint. -/
def tripleKey (r : ExchangeRate) : String × String × ℤ :=
  (r.fromCurrency, r.toCurrency, r.date)

/-- The store invariant enforced by `UniqueConstraint('from_currency',
'to_currency', 'date')`: at most one row per triple. -/
def UniqueTriples (store : RateStore) : Prop :=
  (store.map tripleKey).Nodup

instance : DecidablePred UniqueTriples := by
  intro store
  unfold UniqueTriples
  infer_instance

/-- `db.query(ExchangeRate).filter(from==f, to==t, date==d).first()`. -/
def findExact (store : RateStore) (f t : String) (d : ℤ) : Option ExchangeRate :=
  store.find? (fun r => r.fromCurrency == f && r.toCurrency == t && r.date == d)

/-- `CurrencyService.get_rate_from_db` (currency.py lines 44-73): exact row
first, else the reverse row inverted; the date defaults to today. -/
def getRateFromDb (store : RateStore) (f t : String) (rateDate : Option ℤ)
    (today : ℤ) : Option ℚ :=
  let d := rateDate.getD today
  match findExact store f t d with
  | some row => some row.rate
  | none =>
    match findExact store t f d with
    | some row => some (1 / row.rate)
    | none => none

/-- Python truthiness on an optional Decimal: `if rate:` is false both for
`None` and for `Decimal(0)`. -/
def pyTruthy (x : Option ℚ) : Option ℚ :=
  match x with
  | some r => if r = 0 then none else some r
  | none => none

/-- `query.filter(from==f, to==t).order_by(date.desc()).first()`: the first
row (in table order) carrying the maximal date among the matches. -/
def mostRecent (store : RateStore) (f t : String) : Option ExchangeRate :=
  (store.filter (fun r => r.fromCurrency == f && r.toCurrency == t)).foldl
    (fun acc r =>
      match acc with
      | none => some r
      | some a => if a.date < r.date then some r else some a) none

/-- `CurrencyService.get_rate` (currency.py lines 75-120): same-currency
shortcut, exact-date lookup (through Python truthiness), retry at today for a
historical date, then most-recent direct and most-recent reverse fallbacks. -/
def getRate (store : RateStore) (f t : String) (rateDate : Option ℤ)
    (today : ℤ) : Option ℚ :=
  if f = t then some 1
  else
    match pyTruthy (getRateFromDb store f t rateDate today) with
    | some r => some r
    | none =>
      match
        (match rateDate with
         | some d =>
           if d = today then none
           else pyTruthy (getRateFromDb store f t (some today) today)
         | none => none) with
      | some r => some r
      | none =>
        match mostRecent store f t with
        | some row => some row.rate
        | none =>
          match mostRecent store t f with
          | some row => some (1 / row.rate)
          | none => none

/-- The two-step lookup at a fixed date as worded by the claim: the stored
rate for the exact row `(from, to, d)` if present, else the inverse of the
stored reverse row `(to, from, d)` if present. -/
def lookupPairSpec (store : RateStore) (f t : String) (d : ℤ) : Option ℚ :=
  match findExact store f t d with
  | some row => some row.rate
  | none =>
    match findExact store t f d with
    | some row => some (1 / row.rate)
    | none => none

/-- The resolver exactly as claim C1 words it: `1.0` on the same currency,
else exact/reverse lookup at the requested-date-or-today, else (for a
specific non-today date) the same two lookups at today, else the most recent
direct row, else the inverse of the most recent reverse row, else not-found. -/
def getRateSpec (store : RateStore) (f t : String) (rateDate : Option ℤ)
    (today : ℤ) : Option ℚ :=
  if f = t then some 1
  else
    match lookupPairSpec store f t (rateDate.getD today) with
    | some r => some r
    | none =>
      match
        (match rateDate with
         | some d =>
           if d = today then none
           else lookupPairSpec store f t today
         | none => none) with
      | some r => some r
      | none =>
        match mostRecent store f t with
        | some row => some row.rate
        | none =>
          match mostRecent store t f with
          | some row => some (1 / row.rate)
          | none => none

/-- Currency-code constants used by the concrete examples below. -/
def cUSD : String := "USD"

def cEUR : String := "EUR"

def cTHB : String := "THB"

lemma findExact_mem {store : RateStore} {f t : String} {d : ℤ} {r : ExchangeRate}
    (h : findExact store f t d = some r) : r ∈ store :=
  List.mem_of_find?_eq_some h

lemma getRateFromDb_ne_zero {store : RateStore} {f t : String}
    {rateDate : Option ℤ} {today : ℤ}
    (hz : ∀ r ∈ store, r.rate ≠ 0) :
    ∀ v, getRateFromDb store f t rateDate today = some v → v ≠ 0 := by
  intro v hv
  unfold getRateFromDb at hv
  rcases h1 : findExact store f t (rateDate.getD today) with _ | row
  · rcases h2 : findExact store t f (rateDate.getD today) with _ | row
    · simp [h1, h2] at hv
    · simp [h1, h2] at hv
      have := hz row (findExact_mem h2)
      rw [← hv]
      exact inv_ne_zero this
  · simp [h1] at hv
    rw [← hv]
    exact hz row (findExact_mem h1)

lemma pyTruthy_of_ne_zero {x : Option ℚ}
    (h : ∀ v, x = some v → v ≠ 0) : pyTruthy x = x := by
  cases x with
  | none => rfl
  | some v => simp [pyTruthy, h v rfl]

/-- **C1 (amended).** With every stored rate nonzero, `get_rate` returns
exactly what the claim describes: the stored exact-row rate, else the
inverted reverse row, else (for a non-today request) the same two lookups at
today, else the most recent direct row, else the inverted most recent
reverse row, else not-found; `1.0` without lookup on a same-currency pair. -/
theorem getRate_eq_spec_of_rates_ne_zero
    (store : RateStore) (f t : String) (rateDate : Option ℤ) (today : ℤ)
    (hz : ∀ r ∈ store, r.rate ≠ 0) :
    getRate store f t rateDate today = getRateSpec store f t rateDate today := by
  have hdb : ∀ rd : Option ℤ,
      getRateFromDb store f t rd today = lookupPairSpec store f t (rd.getD today) := by
    intro rd; rfl
  have h1 : pyTruthy (getRateFromDb store f t rateDate today) =
      lookupPairSpec store f t (rateDate.getD today) := by
    rw [pyTruthy_of_ne_zero (getRateFromDb_ne_zero hz), hdb]
  have h2 : pyTruthy (getRateFromDb store f t (some today) today) =
      lookupPairSpec store f t today := by
    rw [pyTruthy_of_ne_zero (getRateFromDb_ne_zero hz), hdb]
    rfl
  unfold getRate getRateSpec
  rw [h1, h2]

/-- Witness for the amended C1 theorem at a concrete store. -/
theorem getRate_eq_spec_witness :
    (∀ r ∈ [ExchangeRate.mk cUSD cEUR 2 3 0], r.rate ≠ 0) ∧
    getRate [ExchangeRate.mk cUSD cEUR 2 3 0] cEUR cUSD none 3 =
      getRateSpec [ExchangeRate.mk cUSD cEUR 2 3 0] cEUR cUSD none 3 :=
  ⟨by decide, getRate_eq_spec_of_rates_ne_zero
    [ExchangeRate.mk cUSD cEUR 2 3 0] cEUR cUSD none 3 (by decide)⟩

/-- **C1 (counterexample).** The claim fails on a store holding a zero rate:
with rows `(USD, EUR, date 5, rate 0)` and `(USD, EUR, date 7, rate 7)` and
today = 7, requesting date 5 finds the exact row, whose stored rate is 0,
yet `get_rate` returns 7 (the `if rate:` truthiness check treats the found
`Decimal(0)` as absent and falls through to the today-retry). -/
theorem getRate_zero_rate_counterexample :
    findExact [ExchangeRate.mk cUSD cEUR 0 5 0, ExchangeRate.mk cUSD cEUR 7 7 0]
      cUSD cEUR 5 = some (ExchangeRate.mk cUSD cEUR 0 5 0) ∧
    getRate [ExchangeRate.mk cUSD cEUR 0 5 0, ExchangeRate.mk cUSD cEUR 7 7 0]
      cUSD cEUR (some 5) 7 = some 7 ∧ (7 : ℚ) ≠ 0 := by
  refine ⟨by decide, by decide, by norm_num⟩

/-- The first-matching-row replacement performed when `save_rate` (or the
identical per-pair body of `save_rates_for_currency`) finds an existing
`(from, to, date)` row: that row's `rate` and `fetched_at` are overwritten
in place, every other row is untouched. -/
def updateFirstRate (store : RateStore) (f t : String) (d : ℤ) (q : ℚ)
    (now : ℤ) : RateStore :=
  match store with
  | [] => []
  | r :: rest =>
    if r.fromCurrency == f && r.toCurrency == t && r.date == d then
      { r with rate := q, fetchedAt := now } :: rest
    else r :: updateFirstRate rest f t d q now

/-- `CurrencyService.save_rate` (currency.py lines 122-153): upsert of the
`(from, to, date)` row. -/
def saveRate (store : RateStore) (f t : String) (q : ℚ) (d now : ℤ) : RateStore :=
  match findExact store f t d with
  | some _ => updateFirstRate store f t d q now
  | none => store ++ [ExchangeRate.mk f t q d now]

/-- `CurrencyService.save_rates_for_currency` (currency.py lines 195-229):
one upsert per `(base, target)` pair, skipping the self pair; the loop body
is the same check-then-update-or-insert block as `save_rate`. -/
def saveRatesForCurrency (store : RateStore) (base : String)
    (rates : List (String × ℚ)) (d now : ℤ) : RateStore :=
  rates.foldl (fun s p => if p.1 == base then s else saveRate s base p.1 p.2 d now) store

lemma updateFirstRate_map_tripleKey (store : RateStore) (f t : String) (d : ℤ)
    (q : ℚ) (now : ℤ) :
    (updateFirstRate store f t d q now).map tripleKey = store.map tripleKey := by
  induction store with
  | nil => rfl
  | cons r rest ih =>
    by_cases h : (r.fromCurrency == f && r.toCurrency == t && r.date == d) = true
    · simp [updateFirstRate, h, tripleKey]
    · simp only [updateFirstRate, h]
      simp [ih]

lemma updateFirstRate_findExact_self (store : RateStore) (f t : String) (d : ℤ)
    (q : ℚ) (now : ℤ) :
    findExact (updateFirstRate store f t d q now) f t d =
      (findExact store f t d).map
        (fun r => { r with rate := q, fetchedAt := now }) := by
  induction store with
  | nil => rfl
  | cons r rest ih =>
    by_cases h : (r.fromCurrency == f && r.toCurrency == t && r.date == d) = true
    · simp [updateFirstRate, findExact, h]
    · have hf : (r.fromCurrency == f && r.toCurrency == t && r.date == d) = false := by
        simpa using h
      simp only [updateFirstRate, hf, if_false]
      simp only [findExact, List.find?, hf] at ih ⊢
      exact ih

lemma updateFirstRate_findExact_other (store : RateStore) (f t : String) (d : ℤ)
    (q : ℚ) (now : ℤ) (f2 t2 : String) (d2 : ℤ)
    (h : ¬(f2 = f ∧ t2 = t ∧ d2 = d)) :
    findExact (updateFirstRate store f t d q now) f2 t2 d2 =
      findExact store f2 t2 d2 := by
  induction store with
  | nil => rfl
  | cons r rest ih =>
    by_cases h1 : (r.fromCurrency == f && r.toCurrency == t && r.date == d) = true
    · have hr : ¬((r.fromCurrency == f2 && r.toCurrency == t2 && r.date == d2) = true) := by
        intro h2
        simp only [Bool.and_eq_true, beq_iff_eq] at h1 h2
        exact h ⟨h2.1.1 ▸ h1.1.1.symm ▸ rfl, h2.1.2 ▸ h1.1.2.symm ▸ rfl,
          h2.2 ▸ h1.2.symm ▸ rfl⟩
      simp only [updateFirstRate, h1, if_true]
      simp only [findExact, List.find?]
      have hr2 : ((r.fromCurrency == f2 && r.toCurrency == t2 && r.date == d2)) = false := by
        simpa using hr
      simp [hr2]
    · simp only [updateFirstRate, h1, if_false]
      simp only [findExact, List.find?] at ih ⊢
      cases h2 : (r.fromCurrency == f2 && r.toCurrency == t2 && r.date == d2) <;>
        simp [h2, ih]

lemma tripleKey_pred_iff (r : ExchangeRate) (f t : String) (d : ℤ) :
    (r.fromCurrency == f && r.toCurrency == t && r.date == d) = true ↔
      tripleKey r = (f, t, d) := by
  simp [tripleKey, Prod.ext_iff, and_assoc]

lemma findExact_none_iff (store : RateStore) (f t : String) (d : ℤ) :
    findExact store f t d = none ↔ (f, t, d) ∉ store.map tripleKey := by
  unfold findExact
  rw [List.find?_eq_none]
  constructor
  · intro h hmem
    rcases List.mem_map.mp hmem with ⟨r, hr, hk⟩
    exact h r hr ((tripleKey_pred_iff r f t d).mpr hk)
  · intro h r hr hp
    exact h (List.mem_map.mpr ⟨r, hr, (tripleKey_pred_iff r f t d).mp hp⟩)

lemma saveRate_uniqueTriples (store : RateStore) (f t : String) (q : ℚ)
    (d now : ℤ) (hInv : UniqueTriples store) :
    UniqueTriples (saveRate store f t q d now) := by
  unfold saveRate
  cases h : findExact store f t d with
  | some r =>
    unfold UniqueTriples
    rw [updateFirstRate_map_tripleKey]
    exact hInv
  | none =>
    unfold UniqueTriples at *
    rw [List.map_append]
    rw [List.nodup_append]
    refine ⟨hInv, by simp [tripleKey], ?_⟩
    intro k hk hk2
    simp only [List.map_cons, List.map_nil, List.mem_singleton] at hk2
    rw [(findExact_none_iff store f t d)] at h
    subst hk2
    exact h hk

lemma saveRate_findExact_self (store : RateStore) (f t : String) (q : ℚ)
    (d now : ℤ) :
    (findExact (saveRate store f t q d now) f t d).map ExchangeRate.rate = some q := by
  unfold saveRate
  cases h : findExact store f t d with
  | some r =>
    rw [updateFirstRate_findExact_self, h]
    rfl
  | none =>
    unfold findExact at h ⊢
    rw [List.find?_append, h]
    simp [List.find?]

lemma saveRate_findExact_other (store : RateStore) (f t : String) (q : ℚ)
    (d now : ℤ) (f2 t2 : String) (d2 : ℤ) (h2 : ¬(f2 = f ∧ t2 = t ∧ d2 = d)) :
    findExact (saveRate store f t q d now) f2 t2 d2 = findExact store f2 t2 d2 := by
  unfold saveRate
  cases h : findExact store f t d with
  | some r => exact updateFirstRate_findExact_other store f t d q now f2 t2 d2 h2
  | none =>
    unfold findExact
    rw [List.find?_append]
    have hrow : ((ExchangeRate.mk f t q d now).fromCurrency == f2 &&
        (ExchangeRate.mk f t q d now).toCurrency == t2 &&
        (ExchangeRate.mk f t q d now).date == d2) = false := by
      by_contra hcon
      rw [Bool.not_eq_false, tripleKey_pred_iff] at hcon
      simp only [tripleKey, Prod.mk.injEq] at hcon
      exact h2 ⟨hcon.1.symm, hcon.2.1.symm, hcon.2.2.symm⟩
    simp [List.find?, hrow]

lemma saveRatesForCurrency_uniqueTriples (base : String) (d now : ℤ) :
    ∀ (rates : List (String × ℚ)) (store : RateStore), UniqueTriples store →
      UniqueTriples (saveRatesForCurrency store base rates d now) := by
  intro rates
  induction rates with
  | nil => intro store h; exact h
  | cons p rest ih =>
    intro store h
    unfold saveRatesForCurrency
    rw [List.foldl_cons]
    by_cases hp : (p.1 == base) = true
    · simp only [hp, if_true]
      exact ih store h
    · have hf : (p.1 == base) = false := by simpa using hp
      simp only [hf, Bool.false_eq_true, if_false]
      exact ih _ (saveRate_uniqueTriples store base p.1 p.2 d now h)

lemma saveRatesForCurrency_findExact_other (base : String) (d now : ℤ) :
    ∀ (rates : List (String × ℚ)) (store : RateStore) (f2 t2 : String) (d2 : ℤ),
      (∀ p ∈ rates, ¬(f2 = base ∧ t2 = p.1 ∧ d2 = d)) →
      findExact (saveRatesForCurrency store base rates d now) f2 t2 d2 =
        findExact store f2 t2 d2 := by
  intro rates
  induction rates with
  | nil => intro store f2 t2 d2 h; rfl
  | cons p rest ih =>
    intro store f2 t2 d2 h
    unfold saveRatesForCurrency
    rw [List.foldl_cons]
    by_cases hp : (p.1 == base) = true
    · simp only [hp, if_true]
      exact ih store f2 t2 d2 (fun x hx => h x (List.mem_cons_of_mem p hx))
    · have hf : (p.1 == base) = false := by simpa using hp
      simp only [hf, Bool.false_eq_true, if_false]
      have h1 := ih (saveRate store base p.1 p.2 d now) f2 t2 d2
        (fun x hx => h x (List.mem_cons_of_mem p hx))
      have h2 := saveRate_findExact_other store base p.1 p.2 d now f2 t2 d2
        (h p (List.mem_cons_self p rest))
      exact h1.trans h2

lemma saveRatesForCurrency_lookup (base : String) (d now : ℤ) :
    ∀ (rates : List (String × ℚ)) (store : RateStore),
      (rates.map Prod.fst).Nodup →
      ∀ p ∈ rates, p.1 ≠ base →
        (findExact (saveRatesForCurrency store base rates d now) base p.1 d).map
          ExchangeRate.rate = some p.2 := by
  intro rates
  induction rates with
  | nil => intro store _ p hp; exact absurd hp (List.not_mem_nil p)
  | cons q rest ih =>
    intro store hnd p hp hpb
    have hndr : (rest.map Prod.fst).Nodup := by
      simpa [List.nodup_cons] using hnd.of_cons
    rcases List.mem_cons.mp hp with hpq | hpr
    · subst hpq
      unfold saveRatesForCurrency
      rw [List.foldl_cons]
      have hf : (p.1 == base) = false := by simpa using hpb
      simp only [hf, Bool.false_eq_true, if_false]
      have hfirst : ∀ x ∈ rest, ¬(base = base ∧ p.1 = x.1 ∧ d = d) := by
        intro x hx hcon
        have : p.1 ∉ rest.map Prod.fst := by
          simpa [List.nodup_cons] using (List.nodup_cons.mp hnd).1
        exact this (hcon.2.1 ▸ List.mem_map_of_mem Prod.fst hx)
      have := saveRatesForCurrency_findExact_other base d now rest
        (saveRate store base p.1 p.2 d now) base p.1 d hfirst
      unfold saveRatesForCurrency at this
      rw [this]
      exact saveRate_findExact_self store base p.1 p.2 d now
    · unfold saveRatesForCurrency
      rw [List.foldl_cons]
      by_cases hq : (q.1 == base) = true
      · simp only [hq, if_true]
        exact ih store hndr p hpr hpb
      · have hf : (q.1 == base) = false := by simpa using hq
        simp only [hf, Bool.false_eq_true, if_false]
        exact ih _ hndr p hpr hpb

/-- **C5.** `save_rate` and `save_rates_for_currency` are upserts that keep
the store's at-most-one-row-per-`(from, to, date)` invariant: when no row
for the triple exists, exactly the one new row is appended; when one exists,
its `rate`/`fetched_at` are overwritten in place (row count and triple keys
unchanged, all other triples untouched); in both cases the stored rate for
the written triple afterwards equals the given rate. The same holds for
every pair written by `save_rates_for_currency`. -/
theorem save_rate_upsert_invariant :
    (∀ (store : RateStore) (f t : String) (q : ℚ) (d now : ℤ),
      UniqueTriples store →
      UniqueTriples (saveRate store f t q d now) ∧
      (findExact (saveRate store f t q d now) f t d).map ExchangeRate.rate = some q ∧
      (findExact store f t d = none →
        saveRate store f t q d now = store ++ [ExchangeRate.mk f t q d now]) ∧
      (findExact store f t d ≠ none →
        (saveRate store f t q d now).map tripleKey = store.map tripleKey ∧
        ∀ f2 t2 d2, ¬(f2 = f ∧ t2 = t ∧ d2 = d) →
          findExact (saveRate store f t q d now) f2 t2 d2 = findExact store f2 t2 d2)) ∧
    (∀ (store : RateStore) (base : String) (rates : List (String × ℚ)) (d now : ℤ),
      UniqueTriples store → (rates.map Prod.fst).Nodup →
      UniqueTriples (saveRatesForCurrency store base rates d now) ∧
      ∀ p ∈ rates, p.1 ≠ base →
        (findExact (saveRatesForCurrency store base rates d now) base p.1 d).map
          ExchangeRate.rate = some p.2) := by
  constructor
  · intro store f t q d now hInv
    refine ⟨saveRate_uniqueTriples store f t q d now hInv,
      saveRate_findExact_self store f t q d now, ?_, ?_⟩
    · intro h
      unfold saveRate
      rw [h]
    · intro h
      cases hfe : findExact store f t d with
      | none => exact absurd hfe h
      | some r =>
        constructor
        · unfold saveRate
          rw [hfe, updateFirstRate_map_tripleKey]
        · intro f2 t2 d2 h2
          exact saveRate_findExact_other store f t q d now f2 t2 d2 h2
  · intro store base rates d now hInv hnd
    exact ⟨saveRatesForCurrency_uniqueTriples base d now rates store hInv,
      saveRatesForCurrency_lookup base d now rates store hnd⟩

/-- Witness for C5 at a concrete store: one update-in-place write and one
two-pair batch write. -/
theorem save_rate_upsert_invariant_witness :
    (UniqueTriples [ExchangeRate.mk cUSD cEUR 2 3 0] ∧
      UniqueTriples (saveRate [ExchangeRate.mk cUSD cEUR 2 3 0] cUSD cEUR 5 3 9) ∧
      (findExact (saveRate [ExchangeRate.mk cUSD cEUR 2 3 0] cUSD cEUR 5 3 9)
        cUSD cEUR 3).map ExchangeRate.rate = some 5) ∧
    (findExact (saveRatesForCurrency [] cUSD [(cEUR, 2), (cTHB, 32)] 3 9)
      cUSD cTHB 3).map ExchangeRate.rate = some 32 := by
  have h1 := save_rate_upsert_invariant.1 [ExchangeRate.mk cUSD cEUR 2 3 0]
    cUSD cEUR 5 3 9 (by decide)
  have h2 := save_rate_upsert_invariant.2 [] cUSD [(cEUR, 2), (cTHB, 32)] 3 9
    (by decide) (by decide)
  exact ⟨⟨by decide, h1.1, h1.2.1⟩, h2.2 (cTHB, 32) (by decide) (by decide)⟩

/-- A Python dict keyed by date, as used for `rates_map` in
`get_historical_rates`: an insertion-ordered association list where an
upsert keeps the key's first position and overwrites its value, and a fresh
key is appended at the end. -/
abbrev DateMap := List (ℤ × ℚ)

/-- `d in rates_map`. -/
def dmContains (m : DateMap) (d : ℤ) : Bool := m.any (fun p => p.1 == d)

/-- `rates_map.get(d)`. -/
def dmGet (m : DateMap) (d : ℤ) : Option ℚ :=
  (m.find? (fun p => p.1 == d)).map Prod.snd

/-- `rates_map[d] = v` (Python dict assignment). -/
def dmUpsert (m : DateMap) (d : ℤ) (v : ℚ) : DateMap :=
  match m with
  | [] => [(d, v)]
  | p :: rest => if p.1 == d then (d, v) :: rest else p :: dmUpsert rest d v

/-- `min(rates_map.keys(), key=lambda x: abs((x - d).days))`: the first key
(in insertion order) at minimal absolute day distance from `d`. -/
def dmNearest (m : DateMap) (d : ℤ) : Option ℤ :=
  m.foldl
    (fun acc p =>
      match acc with
      | none => some p.1
      | some k => if (p.1 - d).natAbs < (k - d).natAbs then some p.1 else some k)
    none

/-- The gap-fill loop of `get_historical_rates` (currency.py lines 375-381):
each window date still missing from the map is appended with the value of
the nearest key *currently in the (mutating) map*. The `none` branch of
`dmNearest` is unreachable because the loop only runs on a nonempty map. -/
def fillDates (m : DateMap) (dates : List ℤ) : DateMap :=
  dates.foldl
    (fun acc d =>
      if dmContains acc d then acc
      else
        match dmNearest acc d with
        | some k => acc ++ [(d, (dmGet acc k).getD 0)]
        | none => acc)
    m

/-- `all_dates = [start_date + timedelta(days=i) for i in range(days)]` with
`start_date = today - (days - 1)`. -/
def windowDates (today : ℤ) (days : ℕ) : List ℤ :=
  (List.range days).map (fun i : ℕ => today - ((days : ℤ) - 1) + (i : ℤ))

/-- Direct in-window rows: the `existing_rates` query of
`get_historical_rates` (currency.py lines 353-358). -/
def directRowsInWindow (store : RateStore) (f t : String) (today : ℤ)
    (days : ℕ) : RateStore :=
  store.filter (fun r => r.fromCurrency == f && r.toCurrency == t &&
    decide (today - ((days : ℤ) - 1) ≤ r.date) && decide (r.date ≤ today))

/-- Reverse in-window rows: the `reverse_rates` query (lines 364-369). -/
def reverseRowsInWindow (store : RateStore) (f t : String) (today : ℤ)
    (days : ℕ) : RateStore :=
  store.filter (fun r => r.fromCurrency == t && r.toCurrency == f &&
    decide (today - ((days : ℤ) - 1) ≤ r.date) && decide (r.date ≤ today))

/-- The merged `rates_map` right after the two build loops (lines 360-373):
direct rows first (dict comprehension), then each reverse row's inverted
rate for dates not already present. -/
def mergedRatesMap (store : RateStore) (f t : String) (today : ℤ)
    (days : ℕ) : DateMap :=
  let map0 := (directRowsInWindow store f t today days).foldl
    (fun m r => dmUpsert m r.date r.rate) []
  (reverseRowsInWindow store f t today days).foldl
    (fun m r => if dmContains m r.date then m else m ++ [(r.date, 1 / r.rate)]) map0

/-- The `rates_map` consulted by the final comprehension: the merged map
itself when it is empty (the `if rates_map:` guard skips the fill), else the
gap-filled map over the window dates. -/
def finalMap (store : RateStore) (f t : String) (today : ℤ) (days : ℕ) : DateMap :=
  if (mergedRatesMap store f t today days).isEmpty then mergedRatesMap store f t today days
  else fillDates (mergedRatesMap store f t today days) (windowDates today days)

/-- One currency of `CurrencyService.get_historical_rates` (currency.py
lines 326-389): same-currency short-circuit, direct/reverse merge
(`mergedRatesMap`), nearest gap-fill only when the map is nonempty
(`finalMap`), and the final per-date list, which drops dates whose value is
missing or `0.0` (`if rates_map.get(d)`); the closing `sorted(...)` is the
identity because `all_dates` is ascending and the comprehension preserves
its order. -/
def historicalSeries (store : RateStore) (today : ℤ) (f t : String)
    (days : ℕ) : List (ℤ × ℚ) :=
  if f = t then (windowDates today days).map (fun d => (d, 1))
  else
    (windowDates today days).filterMap (fun d =>
      match dmGet (finalMap store f t today days) d with
      | some v => if v = 0 then none else some (d, v)
      | none => none)

/-- `CurrencyService.get_historical_rates`: one series per requested source
currency, in request order. -/
def getHistoricalRates (store : RateStore) (today : ℤ)
    (fromCurrencies : List String) (t : String) (days : ℕ) :
    List (String × List (ℤ × ℚ)) :=
  fromCurrencies.map (fun f => (f, historicalSeries store today f t days))

/-- **C4 (counterexample).** The nearest-date fill rule of the claim fails:
with stored `(USD, EUR)` rows only at day 5 (rate 2) and day 10 (rate 7),
today = 10 and a 6-day window, the chronologically nearest stored date to
day 8 is day 10 (distance 2 versus 3), yet the series carries rate 2 at
day 8 — the loop fills dates in ascending order against the *mutating* map,
so day 8 copies from the already-filled day 7 instead of from day 10. -/
theorem getHistoricalRates_nearest_counterexample :
    getHistoricalRates [ExchangeRate.mk cUSD cEUR 2 5 0, ExchangeRate.mk cUSD cEUR 7 10 0]
        10 [cUSD] cEUR 6 =
      [(cUSD, [(5, 2), (6, 2), (7, 2), (8, 2), (9, 7), (10, 7)])] ∧
    ((8 : ℤ) - 10).natAbs < ((8 : ℤ) - 5).natAbs ∧ (2 : ℚ) ≠ 7 := by
  refine ⟨by decide, by decide, by norm_num⟩

/-- **C10 (counterexample).** With a direct `(USD, EUR)` row of rate 0 and a
reverse `(EUR, USD)` row of rate 4 both stored for today, the claim expects
the date's returned rate to be the direct row's; instead the final
comprehension's truthiness filter (`if rates_map.get(d)`) drops the date
entirely and the series is empty. -/
theorem getHistoricalRates_zero_direct_counterexample :
    ExchangeRate.mk cUSD cEUR 0 10 0 ∈
        [ExchangeRate.mk cUSD cEUR 0 10 0, ExchangeRate.mk cEUR cUSD 4 10 0] ∧
    ExchangeRate.mk cEUR cUSD 4 10 0 ∈
        [ExchangeRate.mk cUSD cEUR 0 10 0, ExchangeRate.mk cEUR cUSD 4 10 0] ∧
    getHistoricalRates [ExchangeRate.mk cUSD cEUR 0 10 0, ExchangeRate.mk cEUR cUSD 4 10 0]
        10 [cUSD] cEUR 1 = [(cUSD, [])] := by
  refine ⟨by decide, by decide, by decide⟩

lemma dmGet_upsert_self (m : DateMap) (d : ℤ) (v : ℚ) :
    dmGet (dmUpsert m d v) d = some v := by
  induction m with
  | nil => simp [dmUpsert, dmGet, List.find?]
  | cons p rest ih =>
    by_cases h : (p.1 == d) = true
    · simp [dmUpsert, dmGet, List.find?, h]
    · have hf : (p.1 == d) = false := by simpa using h
      simp only [dmUpsert, hf, Bool.false_eq_true, if_false]
      simp only [dmGet, List.find?, hf] at ih ⊢
      exact ih

lemma dmGet_upsert_other (m : DateMap) (d d2 : ℤ) (v : ℚ) (h : d2 ≠ d) :
    dmGet (dmUpsert m d v) d2 = dmGet m d2 := by
  induction m with
  | nil =>
    have hf : (d == d2) = false := by simpa using (Ne.symm h)
    simp [dmUpsert, dmGet, List.find?, hf]
  | cons p rest ih =>
    by_cases h1 : (p.1 == d) = true
    · have hp : p.1 = d := by simpa using h1
      have hf : (d == d2) = false := by simpa using (Ne.symm h)
      have hf2 : (p.1 == d2) = false := by simp [hp]; exact Ne.symm h
      simp [dmUpsert, dmGet, List.find?, h1, hf, hf2]
    · have hf1 : (p.1 == d) = false := by simpa using h1
      simp only [dmUpsert, hf1, Bool.false_eq_true, if_false]
      cases h2 : (p.1 == d2) with
      | true => simp [dmGet, List.find?, h2]
      | false =>
        simp only [dmGet, List.find?, h2] at ih ⊢
        exact ih

lemma dmGet_append_of_isSome (m m2 : DateMap) (d : ℤ) {v : ℚ}
    (h : dmGet m d = some v) : dmGet (m ++ m2) d = some v := by
  unfold dmGet at *
  rw [List.find?_append]
  cases hf : m.find? (fun p => p.1 == d) with
  | none => rw [hf] at h; simp at h
  | some p => rw [hf] at h; simp [Option.or, hf, h]

lemma dmGet_append_right (m : DateMap) (d : ℤ) (v : ℚ)
    (h : dmGet m d = none) : dmGet (m ++ [(d, v)]) d = some v := by
  unfold dmGet at *
  rw [List.find?_append]
  cases hf : m.find? (fun p => p.1 == d) with
  | none => simp [Option.or, List.find?]
  | some p => rw [hf] at h; simp at h

lemma dmContains_iff_isSome (m : DateMap) (d : ℤ) :
    dmContains m d = true ↔ (dmGet m d).isSome := by
  unfold dmContains dmGet
  constructor
  · intro h
    rcases List.any_eq_true.mp h with ⟨p, hp, hpd⟩
    have hs : (m.find? (fun p => p.1 == d)).isSome :=
      List.find?_isSome.mpr ⟨p, hp, hpd⟩
    cases hf : m.find? (fun p => p.1 == d) with
    | none => rw [hf] at hs; simp at hs
    | some q => simp [hf]
  · intro h
    cases hf : m.find? (fun p => p.1 == d) with
    | none => rw [hf] at h; simp at h
    | some q =>
      have hq := List.find?_some hf
      exact List.any_eq_true.mpr ⟨q, List.mem_of_find?_eq_some hf, hq⟩

/-- The direct-row build loop of `rates_map` (the dict comprehension of
line 361), over an arbitrary row list. -/
def upsertFold (m : DateMap) (rows : RateStore) : DateMap :=
  rows.foldl (fun m r => dmUpsert m r.date r.rate) m

/-- The reverse-row merge loop (lines 371-373), over an arbitrary row list. -/
def revFold (m : DateMap) (rows : RateStore) : DateMap :=
  rows.foldl (fun m r => if dmContains m r.date then m else m ++ [(r.date, 1 / r.rate)]) m

lemma mergedRatesMap_eq (store : RateStore) (f t : String) (today : ℤ) (days : ℕ) :
    mergedRatesMap store f t today days =
      revFold (upsertFold [] (directRowsInWindow store f t today days))
        (reverseRowsInWindow store f t today days) := rfl

lemma dmUpsert_ne_nil (m : DateMap) (d : ℤ) (v : ℚ) : dmUpsert m d v ≠ [] := by
  cases m with
  | nil => simp [dmUpsert]
  | cons p rest =>
    by_cases h : (p.1 == d) = true <;> simp [dmUpsert, h]

lemma dmUpsert_mem {m : DateMap} {d : ℤ} {v : ℚ} {p : ℤ × ℚ}
    (h : p ∈ dmUpsert m d v) : p = (d, v) ∨ p ∈ m := by
  induction m with
  | nil => simpa [dmUpsert] using h
  | cons q rest ih =>
    by_cases hq : (q.1 == d) = true
    · simp only [dmUpsert, hq, if_true, List.mem_cons] at h
      rcases h with h | h
      · exact Or.inl h
      · exact Or.inr (List.mem_cons_of_mem q h)
    · have hf : (q.1 == d) = false := by simpa using hq
      simp only [dmUpsert, hf, Bool.false_eq_true, if_false, List.mem_cons] at h
      rcases h with h | h
      · exact Or.inr (h ▸ List.mem_cons_self q rest)
      · rcases ih h with h2 | h2
        · exact Or.inl h2
        · exact Or.inr (List.mem_cons_of_mem q h2)

lemma dmGet_mem_values {m : DateMap} {d : ℤ} {v : ℚ}
    (h : dmGet m d = some v) : v ∈ m.map Prod.snd := by
  unfold dmGet at h
  cases hf : m.find? (fun p => p.1 == d) with
  | none => rw [hf] at h; simp at h
  | some p =>
    rw [hf] at h
    simp only [Option.map, Option.some.injEq] at h
    exact h ▸ List.mem_map_of_mem Prod.snd (List.mem_of_find?_eq_some hf)

lemma upsertFold_get_of_not_mem :
    ∀ (rows : RateStore) (m : DateMap) (d : ℤ),
      d ∉ rows.map ExchangeRate.date →
      dmGet (upsertFold m rows) d = dmGet m d := by
  intro rows
  induction rows with
  | nil => intro m d _; rfl
  | cons r rest ih =>
    intro m d hd
    simp only [List.map_cons, List.mem_cons, not_or] at hd
    unfold upsertFold
    rw [List.foldl_cons]
    have h1 := ih (dmUpsert m r.date r.rate) d hd.2
    unfold upsertFold at h1
    rw [h1]
    exact dmGet_upsert_other m r.date d r.rate hd.1

lemma upsertFold_get_self :
    ∀ (rows : RateStore) (m : DateMap),
      (rows.map ExchangeRate.date).Nodup →
      ∀ r ∈ rows, dmGet (upsertFold m rows) r.date = some r.rate := by
  intro rows
  induction rows with
  | nil => intro m _ r hr; exact absurd hr (List.not_mem_nil r)
  | cons r0 rest ih =>
    intro m hnd r hr
    have hnd2 : (rest.map ExchangeRate.date).Nodup := by
      simpa [List.nodup_cons] using (List.nodup_cons.mp hnd).2
    rcases List.mem_cons.mp hr with hr0 | hrr
    · subst hr0
      unfold upsertFold
      rw [List.foldl_cons]
      have hnm : r.date ∉ rest.map ExchangeRate.date := by
        simpa [List.nodup_cons] using (List.nodup_cons.mp hnd).1
      have h1 := upsertFold_get_of_not_mem rest (dmUpsert m r.date r.rate) r.date hnm
      unfold upsertFold at h1
      rw [h1]
      exact dmGet_upsert_self m r.date r.rate
    · unfold upsertFold
      rw [List.foldl_cons]
      exact ih (dmUpsert m r0.date r0.rate) hnd2 r hrr

lemma upsertFold_ne_nil :
    ∀ (rows : RateStore) (m : DateMap), m ≠ [] ∨ rows ≠ [] →
      upsertFold m rows ≠ [] := by
  intro rows
  induction rows with
  | nil =>
    intro m h
    rcases h with h | h
    · exact h
    · exact absurd rfl h
  | cons r rest ih =>
    intro m _
    unfold upsertFold
    rw [List.foldl_cons]
    exact ih (dmUpsert m r.date r.rate) (Or.inl (dmUpsert_ne_nil m r.date r.rate))

lemma upsertFold_values (P : ℚ → Prop) :
    ∀ (rows : RateStore) (m : DateMap),
      (∀ p ∈ m, P p.2) → (∀ r ∈ rows, P r.rate) →
      ∀ p ∈ upsertFold m rows, P p.2 := by
  intro rows
  induction rows with
  | nil => intro m hm _ p hp; exact hm p hp
  | cons r rest ih =>
    intro m hm hr p hp
    unfold upsertFold at hp
    rw [List.foldl_cons] at hp
    refine ih (dmUpsert m r.date r.rate) ?_ (fun x hx => hr x (List.mem_cons_of_mem r hx)) p hp
    intro q hq
    rcases dmUpsert_mem hq with h | h
    · rw [h]; exact hr r (List.mem_cons_self r rest)
    · exact hm q h

lemma dmGet_append_single_other (m : DateMap) (d d2 : ℤ) (v : ℚ) (h : d2 ≠ d) :
    dmGet (m ++ [(d, v)]) d2 = dmGet m d2 := by
  unfold dmGet
  rw [List.find?_append]
  have hf : (((d, v) : ℤ × ℚ).1 == d2) = false := by simpa using (Ne.symm h)
  cases hm : m.find? (fun p => p.1 == d2) with
  | none => simp [Option.or, List.find?, hf]
  | some p => simp [Option.or, hf]

lemma revFold_get_preserve :
    ∀ (rows : RateStore) (m : DateMap) (d : ℤ) (v : ℚ),
      dmGet m d = some v → dmGet (revFold m rows) d = some v := by
  intro rows
  induction rows with
  | nil => intro m d v h; exact h
  | cons r rest ih =>
    intro m d v h
    unfold revFold
    rw [List.foldl_cons]
    by_cases hc : dmContains m r.date = true
    · simp only [hc, if_true]
      exact ih m d v h
    · have hf : dmContains m r.date = false := by simpa using hc
      simp only [hf, Bool.false_eq_true, if_false]
      exact ih _ d v (dmGet_append_of_isSome m [(r.date, 1 / r.rate)] d h)

lemma revFold_get_self :
    ∀ (rows : RateStore) (m : DateMap),
      (rows.map ExchangeRate.date).Nodup →
      ∀ r ∈ rows, dmGet m r.date = none →
        dmGet (revFold m rows) r.date = some (1 / r.rate) := by
  intro rows
  induction rows with
  | nil => intro m _ r hr; exact absurd hr (List.not_mem_nil r)
  | cons r0 rest ih =>
    intro m hnd r hr hnone
    have hnd2 : (rest.map ExchangeRate.date).Nodup := by
      simpa [List.nodup_cons] using (List.nodup_cons.mp hnd).2
    rcases List.mem_cons.mp hr with hr0 | hrr
    · subst hr0
      unfold revFold
      rw [List.foldl_cons]
      have hc : dmContains m r.date = false := by
        by_contra hcc
        rw [Bool.not_eq_false, dmContains_iff_isSome, hnone] at hcc
        simp at hcc
      simp only [hc, Bool.false_eq_true, if_false]
      exact revFold_get_preserve rest _ r.date (1 / r.rate)
        (dmGet_append_right m r.date (1 / r.rate) hnone)
    · unfold revFold
      rw [List.foldl_cons]
      have hne : r0.date ≠ r.date := by
        intro hcon
        have : r.date ∈ rest.map ExchangeRate.date := List.mem_map_of_mem _ hrr
        have h0 : r0.date ∉ rest.map ExchangeRate.date := by
          simpa [List.nodup_cons] using (List.nodup_cons.mp hnd).1
        exact h0 (hcon ▸ this)
      by_cases hc : dmContains m r0.date = true
      · simp only [hc, if_true]
        exact ih m hnd2 r hrr hnone
      · have hf : dmContains m r0.date = false := by simpa using hc
        simp only [hf, Bool.false_eq_true, if_false]
        refine ih _ hnd2 r hrr ?_
        rw [dmGet_append_single_other m r0.date r.date (1 / r0.rate) (Ne.symm hne)]
        exact hnone

lemma revFold_ne_nil :
    ∀ (rows : RateStore) (m : DateMap), m ≠ [] ∨ rows ≠ [] →
      revFold m rows ≠ [] := by
  intro rows
  induction rows with
  | nil =>
    intro m h
    rcases h with h | h
    · exact h
    · exact absurd rfl h
  | cons r rest ih =>
    intro m _
    unfold revFold
    rw [List.foldl_cons]
    by_cases hc : dmContains m r.date = true
    · simp only [hc, if_true]
      refine ih m (Or.inl ?_)
      intro hcon
      rw [hcon] at hc
      simp [dmContains] at hc
    · have hf : dmContains m r.date = false := by simpa using hc
      simp only [hf, Bool.false_eq_true, if_false]
      exact ih _ (Or.inl (by simp))

lemma revFold_values (P : ℚ → Prop) :
    ∀ (rows : RateStore) (m : DateMap),
      (∀ p ∈ m, P p.2) → (∀ r ∈ rows, P (1 / r.rate)) →
      ∀ p ∈ revFold m rows, P p.2 := by
  intro rows
  induction rows with
  | nil => intro m hm _ p hp; exact hm p hp
  | cons r rest ih =>
    intro m hm hr p hp
    unfold revFold at hp
    rw [List.foldl_cons] at hp
    by_cases hc : dmContains m r.date = true
    · simp only [hc, if_true] at hp
      exact ih m hm (fun x hx => hr x (List.mem_cons_of_mem r hx)) p hp
    · have hf : dmContains m r.date = false := by simpa using hc
      simp only [hf, Bool.false_eq_true, if_false] at hp
      refine ih _ ?_ (fun x hx => hr x (List.mem_cons_of_mem r hx)) p hp
      intro q hq
      rcases List.mem_append.mp hq with h | h
      · exact hm q h
      · have : q = (r.date, 1 / r.rate) := by simpa using h
        rw [this]
        exact hr r (List.mem_cons_self r rest)

lemma dmNearest_aux_mem (d : ℤ) :
    ∀ (l : DateMap) (acc : Option ℤ) (k : ℤ),
      l.foldl
        (fun acc p =>
          match acc with
          | none => some p.1
          | some k => if (p.1 - d).natAbs < (k - d).natAbs then some p.1 else some k)
        acc = some k →
      acc = some k ∨ k ∈ l.map Prod.fst := by
  intro l
  induction l with
  | nil => intro acc k h; exact Or.inl h
  | cons p rest ih =>
    intro acc k h
    rw [List.foldl_cons] at h
    rcases ih _ k h with h2 | h2
    · cases acc with
      | none =>
        simp only [Option.some.injEq] at h2
        exact Or.inr (by simp [h2])
      | some a =>
        by_cases hlt : (p.1 - d).natAbs < (a - d).natAbs
        · simp only [hlt, if_true, Option.some.injEq] at h2
          exact Or.inr (by simp [h2])
        · simp only [hlt, if_false, Option.some.injEq] at h2
          exact Or.inl (by simp [h2])
    · exact Or.inr (List.mem_cons_of_mem _ h2)

lemma dmNearest_mem_keys {m : DateMap} {d k : ℤ}
    (h : dmNearest m d = some k) : k ∈ m.map Prod.fst := by
  rcases dmNearest_aux_mem d m none k h with h2 | h2
  · simp at h2
  · exact h2

lemma dmNearest_isSome (m : DateMap) (d : ℤ) (h : m ≠ []) :
    (dmNearest m d).isSome := by
  have aux : ∀ (l : DateMap) (acc : Option ℤ), acc.isSome →
      (l.foldl
        (fun acc p =>
          match acc with
          | none => some p.1
          | some k => if (p.1 - d).natAbs < (k - d).natAbs then some p.1 else some k)
        acc).isSome := by
    intro l
    induction l with
    | nil => intro acc h2; exact h2
    | cons p rest ih =>
      intro acc h2
      rw [List.foldl_cons]
      cases acc with
      | none => simp at h2
      | some a =>
        by_cases hlt : (p.1 - d).natAbs < (a - d).natAbs <;> simp [hlt] <;> exact ih _ rfl
  cases m with
  | nil => exact absurd rfl h
  | cons p rest =>
    unfold dmNearest
    rw [List.foldl_cons]
    exact aux rest (some p.1) rfl

lemma dmContains_of_mem_keys {m : DateMap} {k : ℤ}
    (h : k ∈ m.map Prod.fst) : dmContains m k = true := by
  rcases List.mem_map.mp h with ⟨p, hp, hk⟩
  exact List.any_eq_true.mpr ⟨p, hp, by simp [hk]⟩

lemma fillDates_get_preserve :
    ∀ (dates : List ℤ) (m : DateMap) (d : ℤ) (v : ℚ),
      dmGet m d = some v → dmGet (fillDates m dates) d = some v := by
  intro dates
  induction dates with
  | nil => intro m d v h; exact h
  | cons d0 rest ih =>
    intro m d v h
    unfold fillDates
    rw [List.foldl_cons]
    by_cases hc : dmContains m d0 = true
    · simp only [hc, if_true]
      exact ih m d v h
    · have hf : dmContains m d0 = false := by simpa using hc
      simp only [hf, Bool.false_eq_true, if_false]
      cases hn : dmNearest m d0 with
      | none => exact ih m d v h
      | some k => exact ih _ d v (dmGet_append_of_isSome m _ d h)

lemma fillDates_step_ne_nil (m : DateMap) (d0 : ℤ) (h : m ≠ []) :
    (if dmContains m d0 then m
     else
       match dmNearest m d0 with
       | some k => m ++ [(d0, (dmGet m k).getD 0)]
       | none => m) ≠ [] := by
  by_cases hc : dmContains m d0 = true
  · simpa [hc]
  · have hf : dmContains m d0 = false := by simpa using hc
    simp only [hf, Bool.false_eq_true, if_false]
    cases hn : dmNearest m d0 with
    | none => exact h
    | some k => simp

lemma fillDates_covers :
    ∀ (dates : List ℤ) (m : DateMap), m ≠ [] →
      ∀ d ∈ dates, (dmGet (fillDates m dates) d).isSome := by
  intro dates
  induction dates with
  | nil => intro m _ d hd; exact absurd hd (List.not_mem_nil d)
  | cons d0 rest ih =>
    intro m hm d hd
    unfold fillDates
    rw [List.foldl_cons]
    set m1 := (if dmContains m d0 then m
      else
        match dmNearest m d0 with
        | some k => m ++ [(d0, (dmGet m k).getD 0)]
        | none => m) with hm1
    have hm1ne : m1 ≠ [] := fillDates_step_ne_nil m d0 hm
    have hcov : (dmGet m1 d0).isSome := by
      rw [hm1]
      by_cases hc : dmContains m d0 = true
      · simp only [hc, if_true]
        exact (dmContains_iff_isSome m d0).mp hc
      · have hf : dmContains m d0 = false := by simpa using hc
        simp only [hf, Bool.false_eq_true, if_false]
        have hn := dmNearest_isSome m d0 hm
        cases hnn : dmNearest m d0 with
        | none => rw [hnn] at hn; simp at hn
        | some k =>
          have hget : dmGet m d0 = none := by
            cases hg : dmGet m d0 with
            | none => rfl
            | some v =>
              have := (dmContains_iff_isSome m d0).mpr (by simp [hg])
              rw [this] at hf
              simp at hf
          simp only
          rw [dmGet_append_right m d0 _ hget]
          rfl
    rcases List.mem_cons.mp hd with hd0 | hdr
    · subst hd0
      cases hg : dmGet m1 d with
      | none => rw [hg] at hcov; simp at hcov
      | some v =>
        have := fillDates_get_preserve rest m1 d v hg
        unfold fillDates at this
        rw [this]
        rfl
    · exact ih m1 hm1ne d hdr

lemma fillDates_values (W : ℚ → Prop) :
    ∀ (dates : List ℤ) (m : DateMap), (∀ p ∈ m, W p.2) →
      ∀ p ∈ fillDates m dates, W p.2 := by
  intro dates
  induction dates with
  | nil => intro m hm p hp; exact hm p hp
  | cons d0 rest ih =>
    intro m hm p hp
    unfold fillDates at hp
    rw [List.foldl_cons] at hp
    refine ih _ ?_ p hp
    by_cases hc : dmContains m d0 = true
    · simpa [hc] using hm
    · have hf : dmContains m d0 = false := by simpa using hc
      simp only [hf, Bool.false_eq_true, if_false]
      cases hn : dmNearest m d0 with
      | none => exact hm
      | some k =>
        intro q hq
        rcases List.mem_append.mp hq with h | h
        · exact hm q h
        · have hqe : q = (d0, (dmGet m k).getD 0) := by simpa using h
          have hk : dmContains m k = true :=
            dmContains_of_mem_keys (dmNearest_mem_keys hn)
          have hks := (dmContains_iff_isSome m k).mp hk
          cases hg : dmGet m k with
          | none => rw [hg] at hks; simp at hks
          | some v =>
            rcases List.mem_map.mp (dmGet_mem_values hg) with ⟨q2, hq2, hv⟩
            rw [hqe]
            simp only [hg, Option.getD_some]
            exact hv ▸ hm q2 hq2

lemma windowDates_mem (today : ℤ) (days : ℕ) (d : ℤ) :
    d ∈ windowDates today days ↔ today - ((days : ℤ) - 1) ≤ d ∧ d ≤ today := by
  unfold windowDates
  simp only [List.mem_map, List.mem_range]
  constructor
  · rintro ⟨i, hi, rfl⟩
    omega
  · intro h
    exact ⟨(d - (today - ((days : ℤ) - 1))).toNat, by omega, by omega⟩

lemma windowDates_nodup (today : ℤ) (days : ℕ) : (windowDates today days).Nodup := by
  unfold windowDates
  refine List.Nodup.map ?_ (List.nodup_range days)
  intro a b h
  simp only [add_right_inj, Nat.cast_inj] at h
  exact h

lemma filterMap_keyed_sublist (fn : ℤ → Option (ℤ × ℚ))
    (hfn : ∀ d p, fn d = some p → p.1 = d) :
    ∀ dates : List ℤ, ((dates.filterMap fn).map Prod.fst).Sublist dates := by
  intro dates
  induction dates with
  | nil => simp
  | cons d rest ih =>
    cases hd : fn d with
    | none => simpa [List.filterMap_cons, hd] using ih.cons d
    | some p =>
      have := hfn d p hd
      simpa [List.filterMap_cons, hd, this] using ih.cons₂ d

lemma filterMap_all_some_map_fst (fn : ℤ → Option (ℤ × ℚ)) :
    ∀ dates : List ℤ, (∀ d ∈ dates, ∃ v, fn d = some (d, v)) →
      ((dates.filterMap fn).map Prod.fst) = dates := by
  intro dates
  induction dates with
  | nil => intro _; rfl
  | cons d rest ih =>
    intro h
    rcases h d (List.mem_cons_self d rest) with ⟨v, hv⟩
    simp only [List.filterMap_cons, hv, List.map_cons]
    rw [ih (fun x hx => h x (List.mem_cons_of_mem d hx))]

lemma keys_nodup_unique {l : List (ℤ × ℚ)} {p q : ℤ × ℚ}
    (h : (l.map Prod.fst).Nodup) (hp : p ∈ l) (hq : q ∈ l) (heq : p.1 = q.1) :
    p = q := by
  induction l with
  | nil => exact absurd hp (List.not_mem_nil p)
  | cons a rest ih =>
    rw [List.map_cons] at h
    have hnd := List.nodup_cons.mp h
    rcases List.mem_cons.mp hp with hp1 | hp1 <;>
      rcases List.mem_cons.mp hq with hq1 | hq1
    · rw [hp1, hq1]
    · exfalso
      apply hnd.1
      rw [hp1] at heq
      exact heq ▸ List.mem_map_of_mem Prod.fst hq1
    · exfalso
      apply hnd.1
      rw [hq1] at heq
      exact heq ▸ List.mem_map_of_mem Prod.fst hp1
    · exact ih (by simpa using hnd.2) hp1 hq1

lemma historicalSeries_of_ne {store : RateStore} {today : ℤ} {f t : String}
    {days : ℕ} (hne : f ≠ t) :
    historicalSeries store today f t days =
      (windowDates today days).filterMap (fun d =>
        match dmGet (finalMap store f t today days) d with
        | some v => if v = 0 then none else some (d, v)
        | none => none) := by
  unfold historicalSeries
  exact if_neg hne

lemma historicalSeries_same (store : RateStore) (today : ℤ) (t : String)
    (days : ℕ) :
    historicalSeries store today t t days =
      (windowDates today days).map (fun d => (d, (1 : ℚ))) := by
  unfold historicalSeries
  exact if_pos rfl

lemma mem_directRowsInWindow {store : RateStore} {f t : String} {today : ℤ}
    {days : ℕ} {r : ExchangeRate} :
    r ∈ directRowsInWindow store f t today days ↔
      r ∈ store ∧ r.fromCurrency = f ∧ r.toCurrency = t ∧
        today - ((days : ℤ) - 1) ≤ r.date ∧ r.date ≤ today := by
  unfold directRowsInWindow
  rw [List.mem_filter]
  simp [and_assoc]

lemma reverseRows_eq_direct (store : RateStore) (f t : String) (today : ℤ)
    (days : ℕ) :
    reverseRowsInWindow store f t today days =
      directRowsInWindow store t f today days := rfl

lemma directRows_dates_nodup (store : RateStore) (f t : String) (today : ℤ)
    (days : ℕ) (hInv : UniqueTriples store) :
    ((directRowsInWindow store f t today days).map ExchangeRate.date).Nodup := by
  have hsub : ((directRowsInWindow store f t today days).map tripleKey).Sublist
      (store.map tripleKey) :=
    List.Sublist.map tripleKey (List.filter_sublist store)
  have hnd : ((directRowsInWindow store f t today days).map tripleKey).Nodup :=
    List.Nodup.sublist hsub hInv
  have hmaps : (directRowsInWindow store f t today days).map ExchangeRate.date =
      ((directRowsInWindow store f t today days).map tripleKey).map
        (fun k => k.2.2) := by
    rw [List.map_map]
    rfl
  rw [hmaps]
  refine List.Nodup.map_on ?_ hnd
  intro k1 hk1 k2 hk2 heq
  rcases List.mem_map.mp hk1 with ⟨r1, hr1, he1⟩
  rcases List.mem_map.mp hk2 with ⟨r2, hr2, he2⟩
  have h1 := mem_directRowsInWindow.mp hr1
  have h2 := mem_directRowsInWindow.mp hr2
  rw [← he1, ← he2]
  rw [← he1, ← he2] at heq
  simp only [tripleKey] at heq ⊢
  rw [h1.2.1, h1.2.2.1, h2.2.1, h2.2.2.1, heq]

lemma merged_get_direct {store : RateStore} {f t : String} {today : ℤ}
    {days : ℕ} {r : ExchangeRate} (hInv : UniqueTriples store)
    (hr : r ∈ directRowsInWindow store f t today days) :
    dmGet (mergedRatesMap store f t today days) r.date = some r.rate := by
  rw [mergedRatesMap_eq]
  exact revFold_get_preserve _ _ _ _
    (upsertFold_get_self _ [] (directRows_dates_nodup store f t today days hInv) r hr)

lemma merged_get_reverse {store : RateStore} {f t : String} {today : ℤ}
    {days : ℕ} {r : ExchangeRate} (hInv : UniqueTriples store)
    (hr : r ∈ reverseRowsInWindow store f t today days)
    (hnd : findExact store f t r.date = none) :
    dmGet (mergedRatesMap store f t today days) r.date = some (1 / r.rate) := by
  rw [mergedRatesMap_eq]
  have h0 : dmGet (upsertFold [] (directRowsInWindow store f t today days)) r.date = none := by
    rw [upsertFold_get_of_not_mem]
    · rfl
    · intro hmem
      rcases List.mem_map.mp hmem with ⟨r2, hr2, hd2⟩
      have h2 := mem_directRowsInWindow.mp hr2
      rw [findExact_none_iff] at hnd
      exact hnd (List.mem_map.mpr ⟨r2, h2.1, by
        simp [tripleKey, h2.2.1, h2.2.2.1, hd2]⟩)
  refine revFold_get_self _ _ ?_ r hr h0
  rw [reverseRows_eq_direct]
  exact directRows_dates_nodup store t f today days hInv

lemma merged_ne_nil {store : RateStore} {f t : String} {today : ℤ} {days : ℕ}
    (h : directRowsInWindow store f t today days ≠ [] ∨
         reverseRowsInWindow store f t today days ≠ []) :
    mergedRatesMap store f t today days ≠ [] := by
  rw [mergedRatesMap_eq]
  rcases h with h | h
  · exact revFold_ne_nil _ _ (Or.inl (upsertFold_ne_nil _ [] (Or.inr h)))
  · exact revFold_ne_nil _ _ (Or.inr h)

lemma merged_values_pos {store : RateStore} {f t : String} {today : ℤ}
    {days : ℕ} (hz : ∀ r ∈ store, 0 < r.rate) :
    ∀ p ∈ mergedRatesMap store f t today days, 0 < p.2 := by
  rw [mergedRatesMap_eq]
  refine revFold_values _ _ _ ?_ ?_
  · refine upsertFold_values _ _ [] (by simp) ?_
    intro r hr
    exact hz r (mem_directRowsInWindow.mp hr).1
  · intro r hr
    rw [reverseRows_eq_direct] at hr
    have := hz r (mem_directRowsInWindow.mp hr).1
    rw [one_div]
    exact inv_pos.mpr this

lemma finalMap_get_of_merged {store : RateStore} {f t : String} {today : ℤ}
    {days : ℕ} {d : ℤ} {v : ℚ}
    (h : dmGet (mergedRatesMap store f t today days) d = some v) :
    dmGet (finalMap store f t today days) d = some v := by
  unfold finalMap
  by_cases he : (mergedRatesMap store f t today days).isEmpty = true
  · simp only [he, if_true]
    exact h
  · have : (mergedRatesMap store f t today days).isEmpty = false := by simpa using he
    simp only [this, Bool.false_eq_true, if_false]
    exact fillDates_get_preserve _ _ d v h

lemma finalMap_covers {store : RateStore} {f t : String} {today : ℤ}
    {days : ℕ} (hdata : mergedRatesMap store f t today days ≠ []) :
    ∀ d ∈ windowDates today days, (dmGet (finalMap store f t today days) d).isSome := by
  intro d hd
  unfold finalMap
  have : (mergedRatesMap store f t today days).isEmpty = false := by
    simpa [List.isEmpty_iff] using hdata
  simp only [this, Bool.false_eq_true, if_false]
  exact fillDates_covers _ _ hdata d hd

lemma finalMap_values {store : RateStore} {f t : String} {today : ℤ} {days : ℕ} :
    ∀ p ∈ finalMap store f t today days,
      p.2 ∈ (mergedRatesMap store f t today days).map Prod.snd := by
  unfold finalMap
  by_cases he : (mergedRatesMap store f t today days).isEmpty = true
  · simp only [he, if_true]
    intro p hp
    exact List.mem_map_of_mem Prod.snd hp
  · have : (mergedRatesMap store f t today days).isEmpty = false := by simpa using he
    simp only [this, Bool.false_eq_true, if_false]
    exact fillDates_values _ _ _ (fun p hp => List.mem_map_of_mem Prod.snd hp)

lemma historicalSeries_mem_of_get {store : RateStore} {f t : String}
    {today : ℤ} {days : ℕ} {d : ℤ} {v : ℚ} (hne : f ≠ t)
    (hv : dmGet (finalMap store f t today days) d = some v) (hv0 : v ≠ 0)
    (hd : d ∈ windowDates today days) :
    (d, v) ∈ historicalSeries store today f t days := by
  rw [historicalSeries_of_ne hne]
  refine List.mem_filterMap.mpr ⟨d, hd, ?_⟩
  rw [hv]
  simp [hv0]

lemma historicalSeries_full {store : RateStore} {f t : String} {today : ℤ}
    {days : ℕ} (hne : f ≠ t) (hz : ∀ r ∈ store, 0 < r.rate)
    (hdata : mergedRatesMap store f t today days ≠ []) :
    (historicalSeries store today f t days).map Prod.fst = windowDates today days ∧
    ∀ q ∈ historicalSeries store today f t days,
      q.2 ∈ (mergedRatesMap store f t today days).map Prod.snd := by
  have hpos : ∀ p ∈ finalMap store f t today days, 0 < p.2 := by
    intro p hp
    rcases List.mem_map.mp (finalMap_values p hp) with ⟨q, hq, hv⟩
    exact hv ▸ merged_values_pos hz q hq
  have hval : ∀ d v, dmGet (finalMap store f t today days) d = some v →
      0 < v ∧ v ∈ (mergedRatesMap store f t today days).map Prod.snd := by
    intro d v hg
    rcases List.mem_map.mp (dmGet_mem_values hg) with ⟨p, hp, hv⟩
    exact ⟨hv ▸ hpos p hp, hv ▸ finalMap_values p hp⟩
  have hsome : ∀ d ∈ windowDates today days,
      ∃ v, dmGet (finalMap store f t today days) d = some v ∧ 0 < v := by
    intro d hd
    have hs := finalMap_covers hdata d hd
    cases hg : dmGet (finalMap store f t today days) d with
    | none => rw [hg] at hs; simp at hs
    | some v => exact ⟨v, rfl, (hval d v hg).1⟩
  constructor
  · rw [historicalSeries_of_ne hne]
    refine filterMap_all_some_map_fst _ _ ?_
    intro d hd
    rcases hsome d hd with ⟨v, hv, hvpos⟩
    refine ⟨v, ?_⟩
    rw [hv]
    simp [ne_of_gt hvpos]
  · intro q hq
    rw [historicalSeries_of_ne hne] at hq
    rcases List.mem_filterMap.mp hq with ⟨d, hd, hfd⟩
    cases hg : dmGet (finalMap store f t today days) d with
    | none => rw [hg] at hfd; simp at hfd
    | some v =>
      rw [hg] at hfd
      by_cases hv0 : v = 0
      · simp [hv0] at hfd
      · simp only [hv0, if_false] at hfd
        have : q = (d, v) := by simpa using hfd.symm
        rw [this]
        exact (hval d v hg).2

lemma historicalSeries_keys_nodup (store : RateStore) (today : ℤ)
    (f t : String) (days : ℕ) :
    ((historicalSeries store today f t days).map Prod.fst).Nodup := by
  by_cases hft : f = t
  · subst hft
    rw [historicalSeries_same, List.map_map]
    have hcomp : (Prod.fst ∘ fun d : ℤ => (d, (1 : ℚ))) = fun d : ℤ => d := rfl
    rw [hcomp]
    simpa using windowDates_nodup today days
  · rw [historicalSeries_of_ne hft]
    refine List.Nodup.sublist (filterMap_keyed_sublist _ ?_ _) (windowDates_nodup today days)
    intro d p hp
    cases hg : dmGet (finalMap store f t today days) d with
    | none => rw [hg] at hp; simp at hp
    | some v =>
      rw [hg] at hp
      by_cases hv0 : v = 0
      · simp [hv0] at hp
      · simp only [hv0, if_false, Option.some.injEq] at hp
        rw [← hp]

/-- **C10 (amended).** Under the store's per-triple uniqueness invariant,
for any window date carrying a direct `(from, to)` row whose rate is
nonzero, the series returned by `get_historical_rates` carries exactly the
direct row's rate at that date (any reverse row for the same date is
ignored); the inverted reverse rate is used only for dates with no direct
row. -/
theorem historicalRates_direct_precedence
    (store : RateStore) (today : ℤ) (f t : String) (days : ℕ)
    (r : ExchangeRate) (hInv : UniqueTriples store) (hne : f ≠ t)
    (hr : r ∈ store) (hf : r.fromCurrency = f) (ht : r.toCurrency = t)
    (hlo : today - ((days : ℤ) - 1) ≤ r.date) (hhi : r.date ≤ today)
    (hz : r.rate ≠ 0) :
    (r.date, r.rate) ∈ historicalSeries store today f t days ∧
    ∀ p ∈ historicalSeries store today f t days, p.1 = r.date → p.2 = r.rate := by
  have hdr : r ∈ directRowsInWindow store f t today days :=
    mem_directRowsInWindow.mpr ⟨hr, hf, ht, hlo, hhi⟩
  have hget := merged_get_direct hInv hdr
  have hfin := finalMap_get_of_merged hget
  have hmem := historicalSeries_mem_of_get hne hfin hz
    ((windowDates_mem today days r.date).mpr ⟨hlo, hhi⟩)
  refine ⟨hmem, ?_⟩
  intro p hp hpd
  have hpe := keys_nodup_unique (historicalSeries_keys_nodup store today f t days)
    hp hmem hpd
  rw [hpe]

/-- Witness for the amended C10 theorem: a store holding both a direct
`USD→EUR` row (rate 2) and a reverse `EUR→USD` row (rate 4) for today; the
series entry for today carries the direct rate 2. -/
theorem historicalRates_direct_precedence_witness :
    ((10 : ℤ), (2 : ℚ)) ∈ historicalSeries
      [ExchangeRate.mk cUSD cEUR 2 10 0, ExchangeRate.mk cEUR cUSD 4 10 0]
      10 cUSD cEUR 1 :=
  (historicalRates_direct_precedence
    [ExchangeRate.mk cUSD cEUR 2 10 0, ExchangeRate.mk cEUR cUSD 4 10 0]
    10 cUSD cEUR 1 (ExchangeRate.mk cUSD cEUR 2 10 0)
    (by decide) (by decide) (by decide) rfl rfl (by decide) (by decide)
    (by norm_num)).1

/-- **C4 (amended).** With all stored rates positive and the store's
uniqueness invariant, each returned per-currency series satisfies: rate 1.0
on every window date for the same-currency pair; the empty series when no
direct or reverse row lies in the window; otherwise exactly one entry per
window date in ascending order, where a date with a stored direct row
carries that row's rate, a date with only a reverse row carries its
inverted rate, and every remaining date carries a rate copied from some
stored (direct or inverted-reverse) date of the window — not necessarily
the chronologically nearest one. -/
theorem getHistoricalRates_amended_spec
    (store : RateStore) (today : ℤ) (fromCurrencies : List String)
    (t : String) (days : ℕ)
    (hInv : UniqueTriples store) (hz : ∀ r ∈ store, 0 < r.rate) :
    ∀ p ∈ getHistoricalRates store today fromCurrencies t days,
      p.2 = historicalSeries store today p.1 t days ∧
      (p.1 = t → p.2 = (windowDates today days).map (fun d => (d, (1 : ℚ)))) ∧
      (p.1 ≠ t →
        ((directRowsInWindow store p.1 t today days = [] ∧
          reverseRowsInWindow store p.1 t today days = []) → p.2 = []) ∧
        ((directRowsInWindow store p.1 t today days ≠ [] ∨
          reverseRowsInWindow store p.1 t today days ≠ []) →
          p.2.map Prod.fst = windowDates today days ∧
          ∀ q ∈ p.2, q.2 ∈ (mergedRatesMap store p.1 t today days).map Prod.snd) ∧
        (∀ r ∈ store, r.fromCurrency = p.1 → r.toCurrency = t →
          today - ((days : ℤ) - 1) ≤ r.date → r.date ≤ today →
          (r.date, r.rate) ∈ p.2) ∧
        (∀ r ∈ store, r.fromCurrency = t → r.toCurrency = p.1 →
          findExact store p.1 t r.date = none →
          today - ((days : ℤ) - 1) ≤ r.date → r.date ≤ today →
          (r.date, 1 / r.rate) ∈ p.2)) := by
  intro p hp
  rcases List.mem_map.mp hp with ⟨fc, hfc, hpe⟩
  subst hpe
  refine ⟨rfl, ?_, ?_⟩
  · intro h1
    simp only at h1 ⊢
    rw [h1]
    exact historicalSeries_same store today t days
  · intro hne
    simp only at hne ⊢
    refine ⟨?_, ?_, ?_, ?_⟩
    · rintro ⟨hd, hr⟩
      have hm : mergedRatesMap store fc t today days = [] := by
        rw [mergedRatesMap_eq, hd, hr]
        rfl
      rw [historicalSeries_of_ne hne]
      have hfm : finalMap store fc t today days = [] := by
        unfold finalMap
        rw [hm]
        rfl
      rw [hfm]
      simp only [List.filterMap_eq_nil_iff]
      intro a _
      rfl
    · intro hdata
      exact historicalSeries_full hne hz (merged_ne_nil hdata)
    · intro r hr hf ht hlo hhi
      have hdr : r ∈ directRowsInWindow store fc t today days :=
        mem_directRowsInWindow.mpr ⟨hr, hf, ht, hlo, hhi⟩
      exact historicalSeries_mem_of_get hne
        (finalMap_get_of_merged (merged_get_direct hInv hdr)) (hz r hr).ne'
        ((windowDates_mem today days r.date).mpr ⟨hlo, hhi⟩)
    · intro r hr hf ht hnone hlo hhi
      have hrr : r ∈ reverseRowsInWindow store fc t today days := by
        rw [reverseRows_eq_direct]
        exact mem_directRowsInWindow.mpr ⟨hr, hf, ht, hlo, hhi⟩
      refine historicalSeries_mem_of_get hne
        (finalMap_get_of_merged (merged_get_reverse hInv hrr hnone)) ?_
        ((windowDates_mem today days r.date).mpr ⟨hlo, hhi⟩)
      exact one_div_ne_zero (hz r hr).ne'

/-- Witness for the amended C4 theorem: with data at days 5 and 10 of a
6-day window, the series covers every window date. -/
theorem getHistoricalRates_amended_witness :
    (historicalSeries [ExchangeRate.mk cUSD cEUR 2 5 0, ExchangeRate.mk cUSD cEUR 7 10 0]
      10 cUSD cEUR 6).map Prod.fst = windowDates 10 6 := by
  have h := getHistoricalRates_amended_spec
    [ExchangeRate.mk cUSD cEUR 2 5 0, ExchangeRate.mk cUSD cEUR 7 10 0]
    10 [cUSD] cEUR 6 (by decide) (by decide)
    (cUSD, historicalSeries [ExchangeRate.mk cUSD cEUR 2 5 0, ExchangeRate.mk cUSD cEUR 7 10 0]
      10 cUSD cEUR 6)
    (by simp [getHistoricalRates])
  exact ((h.2.2 (by decide)).2.1 (Or.inl (by decide))).1

/-- A row of the `trips` table (`app/models/trip.py`), restricted to the
fields read by the services under proof. -/
structure Trip where
  id : ℕ
  name : String
  currencyCode : String
  startDate : ℤ
  endDate : ℤ
  totalBudget : Option ℚ
  dailyBudget : Option ℚ
deriving DecidableEq, Repr

/-- A row of the `categories` table (`app/models/category.py`). -/
structure Category where
  id : ℕ
  tripId : ℕ
  name : String
  color : String
  icon : Option String
  budgetPercentage : Option ℚ
deriving DecidableEq, Repr

/-- A row of the `expenses` table (`app/models/expense.py`).
`exchange_rate` and `amount_in_trip_currency` are nullable in the schema but
are written by every service code path under proof, so they are modelled as
plain fields. -/
structure Expense where
  tripId : ℕ
  categoryId : ℕ
  userId : ℕ
  title : String
  amount : ℚ
  currencyCode : String
  exchangeRate : ℚ
  amountInTripCurrency : ℚ
  startDate : ℤ
  endDate : Option ℤ
deriving DecidableEq, Repr

/-- The application database state used by the trip/expense services. -/
structure DB where
  trips : List Trip
  categories : List Category
  expenses : List Expense
  rates : RateStore
deriving DecidableEq, Repr

/-- The service-level error outcomes: the `HTTPException`s raised by the
services, the `TypeError` raised by `await`-ing a non-awaitable, and the
`TypeError` raised by arithmetic on `None`. -/
inductive ApiError where
  | notFound
  | badRequest
  | awaitTypeError
  | typeError
deriving DecidableEq, Repr

/-- `db.query(Trip).filter(Trip.id == trip_id).first()`. -/
def findTrip (db : DB) (tripId : ℕ) : Option Trip :=
  db.trips.find? (fun tr => tr.id == tripId)

/-- The candidate filter of `get_daily_budget_statistics`
(expense_service.py lines 438-450): single-day expenses (`end_date` null)
starting on the target date, plus multi-day expenses whose inclusive
`[start_date, end_date]` range contains it. -/
def isCandidateToday (tripId : ℕ) (d : ℤ) (e : Expense) : Bool :=
  e.tripId == tripId &&
    (match e.endDate with
     | none => e.startDate == d
     | some en => decide (e.startDate ≤ d) && decide (d ≤ en))

def expensesToday (db : DB) (tripId : ℕ) (d : ℤ) : List Expense :=
  db.expenses.filter (isCandidateToday tripId d)

/-- The trip's categories as returned by the
`order_by(display_order, created_at)` query (lines 453-455); the stored
list order models that query's result order. -/
def tripCategories (db : DB) (tripId : ℕ) : List Category :=
  db.categories.filter (fun c => c.tripId == tripId)

/-- One entry of `by_category_today`. -/
structure CatEntry where
  categoryId : ℕ
  categoryName : String
  categoryColor : String
  categoryIcon : String
  totalSpent : ℚ
  categoryDailyBudget : ℚ
  remainingBudget : ℚ
deriving DecidableEq, Repr

def defaultIcon : String := "more-horizontal"

/-- The seed value of one `category_spending` entry (lines 460-473),
including the `if daily_budget > 0 and cat.budget_percentage:` guard, whose
truthiness treats both a null and a zero percentage as false. -/
def initCatEntry (dailyBudget : ℚ) (c : Category) : CatEntry :=
  let cdb : ℚ :=
    match c.budgetPercentage with
    | some p => if 0 < dailyBudget ∧ p ≠ 0 then dailyBudget * (p / 100) else 0
    | none => 0
  { categoryId := c.id, categoryName := c.name, categoryColor := c.color,
    categoryIcon := c.icon.getD defaultIcon,
    totalSpent := 0, categoryDailyBudget := cdb, remainingBudget := cdb }

/-- Python-dict assignment `category_spending[cat.id] = {...}`: replace the
value at an existing key (keeping its position), else append. -/
def upsertCatEntry : List CatEntry → CatEntry → List CatEntry
  | [], ent => [ent]
  | x :: rest, ent =>
    if x.categoryId == ent.categoryId then ent :: rest
    else x :: upsertCatEntry rest ent

/-- The `category_spending` dict after the seeding loop over all trip
categories. -/
def initCatSpending (dailyBudget : ℚ) (cats : List Category) : List CatEntry :=
  cats.foldl (fun acc c => upsertCatEntry acc (initCatEntry dailyBudget c)) []

/-- The per-day amount of one candidate expense (lines 480-489): the full
`amount_in_trip_currency` when `end_date` is null or equals `start_date`,
else the even split over the inclusive day span. -/
def dailyShare (e : Expense) : ℚ :=
  match e.endDate with
  | none => e.amountInTripCurrency
  | some en =>
    if e.startDate = en then e.amountInTripCurrency
    else e.amountInTripCurrency / ((en - e.startDate + 1 : ℤ) : ℚ)

/-- The category-bucket update (lines 496-503): the entry whose id matches
the expense's category (if any) accumulates the daily amount and has its
remaining budget recomputed; `if category_id in category_spending:` makes
this a no-op for an unknown category. -/
def addToCategory (ents : List CatEntry) (cid : ℕ) (da : ℚ) : List CatEntry :=
  ents.map (fun x =>
    if x.categoryId == cid then
      { x with totalSpent := x.totalSpent + da,
               remainingBudget := x.categoryDailyBudget - (x.totalSpent + da) }
    else x)

/-- The running state of the expense loop (lines 476-503). -/
structure DayLoopState where
  totalSpent : ℚ
  expenseCount : ℕ
  entries : List CatEntry
deriving DecidableEq, Repr

def dayLoopStep (d : ℤ) (st : DayLoopState) (e : Expense) : DayLoopState :=
  let da := dailyShare e
  { totalSpent := st.totalSpent + da,
    expenseCount := if e.startDate = d then st.expenseCount + 1 else st.expenseCount,
    entries := addToCategory st.entries e.categoryId da }

def runDayLoop (d : ℤ) (ents : List CatEntry) (es : List Expense) : DayLoopState :=
  es.foldl (dayLoopStep d) { totalSpent := 0, expenseCount := 0, entries := ents }

/-- The `all_expenses` query of the cumulative block (lines 521-532),
including the redundant second disjunct of its `or_`. -/
def pastExpensesQuery (db : DB) (tripId : ℕ) (tstart d : ℤ) : List Expense :=
  db.expenses.filter (fun e =>
    e.tripId == tripId &&
      (decide (e.startDate < d) ||
       (match e.endDate with
        | some en => decide (e.startDate < d) && decide (tstart ≤ en)
        | none => false)))

/-- The cumulative-past contribution of one expense (lines 536-557):
single-day expenses count fully when they started before the target date;
multi-day expenses count their daily share once per covered day clipped to
`[max(start, trip.start), min(end, target - 1)]`. -/
def pastContribution (tstart d : ℤ) (e : Expense) : ℚ :=
  match e.endDate with
  | none => if e.startDate < d then e.amountInTripCurrency else 0
  | some en =>
    if en = e.startDate then
      (if e.startDate < d then e.amountInTripCurrency else 0)
    else
      let da := e.amountInTripCurrency / ((en - e.startDate + 1 : ℤ) : ℚ)
      let es0 := max e.startDate tstart
      if es0 < d then
        let last := min en (d - 1)
        if es0 ≤ last then da * ((last - es0 + 1 : ℤ) : ℚ) else 0
      else 0

def cumulativeSpentPast (db : DB) (tripId : ℕ) (tstart d : ℤ) : ℚ :=
  (pastExpensesQuery db tripId tstart d).foldl
    (fun acc e => acc + pastContribution tstart d e) 0

/-- The response record of `get_daily_budget_statistics`. -/
structure DailyBudgetStatistics where
  date : ℤ
  dailyBudget : Option ℚ
  totalSpentToday : ℚ
  remainingToday : ℚ
  percentageUsedToday : ℚ
  expenseCountToday : ℕ
  byCategoryToday : List CatEntry
  isOverBudget : Bool
  daysIntoTrip : ℤ
  totalDays : ℤ
  cumulativeBudgetPast : Option ℚ
  cumulativeSpentPast : Option ℚ
  cumulativeSavingsPast : Option ℚ
deriving DecidableEq, Repr

/-- The statistics record built for an existing trip (lines 428-575):
`daily_budget = float(trip.daily_budget or 0)`, the candidate-expense loop,
and the cumulative block guarded by
`target_date > trip.start_date and daily_budget > 0`. -/
def statsFor (db : DB) (tripId : ℕ) (trip : Trip) (d : ℤ) : DailyBudgetStatistics :=
  let dailyBudget : ℚ := trip.dailyBudget.getD 0
  let st := runDayLoop d (initCatSpending dailyBudget (tripCategories db tripId))
    (expensesToday db tripId d)
  let percentage : ℚ := if 0 < dailyBudget then st.totalSpent / dailyBudget * 100 else 0
  let cum : Option ℚ × Option ℚ × Option ℚ :=
    if trip.startDate < d ∧ 0 < dailyBudget then
      let cb := dailyBudget * ((d - trip.startDate : ℤ) : ℚ)
      let cs := cumulativeSpentPast db tripId trip.startDate d
      (some cb, some cs, some (cb - cs))
    else (none, none, none)
  { date := d,
    dailyBudget := if 0 < dailyBudget then some dailyBudget else none,
    totalSpentToday := st.totalSpent,
    remainingToday := dailyBudget - st.totalSpent,
    percentageUsedToday := min percentage (9999 / 10),
    expenseCountToday := st.expenseCount,
    byCategoryToday := st.entries,
    isOverBudget := if 0 < dailyBudget then decide (dailyBudget < st.totalSpent) else false,
    daysIntoTrip := d - trip.startDate + 1,
    totalDays := trip.endDate - trip.startDate + 1,
    cumulativeBudgetPast := cum.1,
    cumulativeSpentPast := cum.2.1,
    cumulativeSavingsPast := cum.2.2 }

/-- `get_daily_budget_statistics(db, trip_id, target_date)` with the
server-local today passed explicitly (it is only read when `target_date` is
null); a missing trip raises 404. -/
def getDailyBudgetStatistics (db : DB) (tripId : ℕ) (targetDate : Option ℤ)
    (todayDate : ℤ) : Except ApiError DailyBudgetStatistics :=
  match findTrip db tripId with
  | none => .error .notFound
  | some trip => .ok (statsFor db tripId trip (targetDate.getD todayDate))

lemma foldl_add_sum {α : Type} (f : α → ℚ) :
    ∀ (l : List α) (acc : ℚ), l.foldl (fun a e => a + f e) acc = acc + (l.map f).sum := by
  intro l
  induction l with
  | nil => intro acc; simp
  | cons e rest ih =>
    intro acc
    rw [List.foldl_cons, ih]
    simp [add_assoc]

lemma runDayLoop_totalSpent_aux (d : ℤ) :
    ∀ (es : List Expense) (st : DayLoopState),
      (es.foldl (dayLoopStep d) st).totalSpent = st.totalSpent + (es.map dailyShare).sum := by
  intro es
  induction es with
  | nil => intro st; simp
  | cons e rest ih =>
    intro st
    rw [List.foldl_cons, ih]
    simp [dayLoopStep, add_assoc]

lemma runDayLoop_totalSpent (d : ℤ) (ents : List CatEntry) (es : List Expense) :
    (runDayLoop d ents es).totalSpent = (es.map dailyShare).sum := by
  unfold runDayLoop
  rw [runDayLoop_totalSpent_aux]
  simp

lemma runDayLoop_count_aux (d : ℤ) :
    ∀ (es : List Expense) (st : DayLoopState),
      (es.foldl (dayLoopStep d) st).expenseCount =
        st.expenseCount + es.countP (fun e => e.startDate == d) := by
  intro es
  induction es with
  | nil => intro st; simp
  | cons e rest ih =>
    intro st
    rw [List.foldl_cons, ih]
    by_cases h : e.startDate = d
    · simp [dayLoopStep, h, List.countP_cons]
      omega
    · have hf : (e.startDate == d) = false := by simpa using h
      simp [dayLoopStep, h, List.countP_cons, hf]

lemma runDayLoop_count (d : ℤ) (ents : List CatEntry) (es : List Expense) :
    (runDayLoop d ents es).expenseCount = es.countP (fun e => e.startDate == d) := by
  unfold runDayLoop
  rw [runDayLoop_count_aux]
  simp

lemma runDayLoop_entries_aux (d : ℤ) :
    ∀ (es : List Expense) (st : DayLoopState),
      (es.foldl (dayLoopStep d) st).entries =
        es.foldl (fun ents e => addToCategory ents e.categoryId (dailyShare e)) st.entries := by
  intro es
  induction es with
  | nil => intro st; rfl
  | cons e rest ih =>
    intro st
    rw [List.foldl_cons, ih, List.foldl_cons]
    rfl

lemma filter_split {α : Type} (p : α → Bool) (l1 l2 : List α) (a : α)
    (ha : p a = true) :
    (l1 ++ a :: l2).filter p = l1.filter p ++ a :: l2.filter p := by
  simp [List.filter_append, List.filter_cons, ha]

lemma statsFor_totalSpentToday (db : DB) (tripId : ℕ) (trip : Trip) (d : ℤ) :
    (statsFor db tripId trip d).totalSpentToday =
      ((expensesToday db tripId d).map dailyShare).sum := by
  have : (statsFor db tripId trip d).totalSpentToday =
      (runDayLoop d (initCatSpending (trip.dailyBudget.getD 0) (tripCategories db tripId))
        (expensesToday db tripId d)).totalSpent := rfl
  rw [this, runDayLoop_totalSpent]

lemma statsFor_expenseCountToday (db : DB) (tripId : ℕ) (trip : Trip) (d : ℤ) :
    (statsFor db tripId trip d).expenseCountToday =
      (expensesToday db tripId d).countP (fun e => e.startDate == d) := by
  have : (statsFor db tripId trip d).expenseCountToday =
      (runDayLoop d (initCatSpending (trip.dailyBudget.getD 0) (tripCategories db tripId))
        (expensesToday db tripId d)).expenseCount := rfl
  rw [this, runDayLoop_count]

/-- **C2.** In `get_daily_budget_statistics`, a multi-day candidate expense
(non-null `end_date` distinct from `start_date`, spanning the target date)
contributes exactly `amount_in_trip_currency / (end_date - start_date + 1)`
to `total_spent_today` on each day it covers — removing it decreases the
total by exactly that share — while `expense_count_today` counts exactly the
candidate expenses whose `start_date` equals the target date, so the expense
adds 1 to the count on its first day and 0 on the others. -/
theorem multiday_even_split_allocation
    (db : DB) (tripId : ℕ) (d todayDate : ℤ) (trip : Trip)
    (hft : findTrip db tripId = some trip)
    (es1 es2 : List Expense) (e : Expense) (en : ℤ)
    (hsplit : db.expenses = es1 ++ e :: es2)
    (htrip : e.tripId = tripId) (hen : e.endDate = some en)
    (hm : e.startDate ≠ en) (hlo : e.startDate ≤ d) (hhi : d ≤ en) :
    (getDailyBudgetStatistics db tripId (some d) todayDate).map
        (fun s => s.totalSpentToday) =
      (getDailyBudgetStatistics { db with expenses := es1 ++ es2 } tripId
          (some d) todayDate).map
        (fun s => s.totalSpentToday +
          e.amountInTripCurrency / ((en - e.startDate + 1 : ℤ) : ℚ)) ∧
    (getDailyBudgetStatistics db tripId (some d) todayDate).map
        (fun s => s.expenseCountToday) =
      (getDailyBudgetStatistics { db with expenses := es1 ++ es2 } tripId
          (some d) todayDate).map
        (fun s => s.expenseCountToday + (if e.startDate = d then 1 else 0)) ∧
    (getDailyBudgetStatistics db tripId (some d) todayDate).map
        (fun s => s.expenseCountToday) =
      .ok ((expensesToday db tripId d).countP (fun x => x.startDate == d)) := by
  have hft2 : findTrip { db with expenses := es1 ++ es2 } tripId = some trip := hft
  have hcand : isCandidateToday tripId d e = true := by
    simp [isCandidateToday, htrip, hen, hlo, hhi]
  have hsplitf : expensesToday db tripId d =
      es1.filter (isCandidateToday tripId d) ++
        e :: es2.filter (isCandidateToday tripId d) := by
    unfold expensesToday
    rw [hsplit]
    exact filter_split _ es1 es2 e hcand
  have hf2 : expensesToday { db with expenses := es1 ++ es2 } tripId d =
      es1.filter (isCandidateToday tripId d) ++ es2.filter (isCandidateToday tripId d) := by
    unfold expensesToday
    simp [List.filter_append]
  have hshare : dailyShare e = e.amountInTripCurrency / ((en - e.startDate + 1 : ℤ) : ℚ) := by
    unfold dailyShare
    rw [hen]
    simp [hm]
  unfold getDailyBudgetStatistics
  rw [hft, hft2]
  simp only [Except.map, Option.getD_some, Except.ok.injEq]
  refine ⟨?_, ?_, ?_⟩
  · rw [statsFor_totalSpentToday, statsFor_totalSpentToday, hsplitf, hf2]
    simp only [List.map_append, List.sum_append, List.map_cons, List.sum_cons]
    rw [hshare]
    ring_nf
  · rw [statsFor_expenseCountToday, statsFor_expenseCountToday, hsplitf, hf2]
    simp only [List.countP_append, List.countP_cons]
    by_cases h : e.startDate = d
    · simp [h]
      omega
    · have hfe : (e.startDate == d) = false := by simpa using h
      simp [h, hfe]
  · rw [statsFor_expenseCountToday]

/-- Witness for C2: the spec's 3-day expense of 3000 on its second day —
removing it drops the total by its 1000 daily share and the count by 0. -/
theorem multiday_even_split_allocation_witness :
    (getDailyBudgetStatistics
        { trips := [{ id := 1, name := "T", currencyCode := cTHB, startDate := 0,
                      endDate := 9, totalBudget := some 10000, dailyBudget := some 1000 }],
          categories := [{ id := 1, tripId := 1, name := "Food", color := "#abc",
                           icon := none, budgetPercentage := some 50 }],
          expenses := [{ tripId := 1, categoryId := 1, userId := 1, title := "Hotel",
                         amount := 3000, currencyCode := cTHB, exchangeRate := 1,
                         amountInTripCurrency := 3000, startDate := 1, endDate := some 3 }],
          rates := [] } 1 (some 2) 9).map (fun s => s.totalSpentToday) =
      (getDailyBudgetStatistics
        { trips := [{ id := 1, name := "T", currencyCode := cTHB, startDate := 0,
                      endDate := 9, totalBudget := some 10000, dailyBudget := some 1000 }],
          categories := [{ id := 1, tripId := 1, name := "Food", color := "#abc",
                           icon := none, budgetPercentage := some 50 }],
          expenses := [],
          rates := [] } 1 (some 2) 9).map
        (fun s => s.totalSpentToday + 3000 / (((3 : ℤ) - 1 + 1 : ℤ) : ℚ)) :=
  (multiday_even_split_allocation
    { trips := [{ id := 1, name := "T", currencyCode := cTHB, startDate := 0,
                  endDate := 9, totalBudget := some 10000, dailyBudget := some 1000 }],
      categories := [{ id := 1, tripId := 1, name := "Food", color := "#abc",
                       icon := none, budgetPercentage := some 50 }],
      expenses := [{ tripId := 1, categoryId := 1, userId := 1, title := "Hotel",
                     amount := 3000, currencyCode := cTHB, exchangeRate := 1,
                     amountInTripCurrency := 3000, startDate := 1, endDate := some 3 }],
      rates := [] } 1 2 9
    { id := 1, name := "T", currencyCode := cTHB, startDate := 0, endDate := 9,
      totalBudget := some 10000, dailyBudget := some 1000 }
    (by decide) [] []
    { tripId := 1, categoryId := 1, userId := 1, title := "Hotel", amount := 3000,
      currencyCode := cTHB, exchangeRate := 1, amountInTripCurrency := 3000,
      startDate := 1, endDate := some 3 }
    3 rfl rfl rfl (by decide) (by decide) (by decide)).1

/-- The cumulative-past contribution per expense exactly as claim C3 words
it: a multi-day expense contributes its even daily share times
`days_in_past = (min(end_date, target - 1) - max(start_date, trip_start)) + 1`,
only when that count is positive; a single-day expense (null `end_date` or
`end_date == start_date`) counts fully when it started before the target. -/
def pastShareSpec (tstart d : ℤ) (e : Expense) : ℚ :=
  match e.endDate with
  | none => if e.startDate < d then e.amountInTripCurrency else 0
  | some en =>
    if en = e.startDate then
      (if e.startDate < d then e.amountInTripCurrency else 0)
    else
      if 1 ≤ min en (d - 1) - max e.startDate tstart + 1 then
        (e.amountInTripCurrency / ((en - e.startDate + 1 : ℤ) : ℚ)) *
          ((min en (d - 1) - max e.startDate tstart + 1 : ℤ) : ℚ)
      else 0

lemma pastContribution_eq_spec (tstart d : ℤ) (e : Expense) :
    pastContribution tstart d e = pastShareSpec tstart d e := by
  unfold pastContribution pastShareSpec
  cases hen : e.endDate with
  | none => rfl
  | some en =>
    by_cases hse : en = e.startDate
    · simp [hse]
    · simp only [hse, if_false]
      split_ifs with h1 h2 h3 h4 h5 <;> first
        | rfl
        | omega

lemma pastShareSpec_zero_of_late (tstart d : ℤ) (e : Expense)
    (h : ¬ e.startDate < d) : pastShareSpec tstart d e = 0 := by
  unfold pastShareSpec
  cases hen : e.endDate with
  | none => simp [h]
  | some en =>
    by_cases hse : en = e.startDate
    · simp [hse, h]
    · simp only [hse, if_false]
      rw [if_neg]
      omega

lemma cumulativeSpentPast_eq_sum (db : DB) (tripId : ℕ) (tstart d : ℤ) :
    cumulativeSpentPast db tripId tstart d =
      ((pastExpensesQuery db tripId tstart d).map (pastContribution tstart d)).sum := by
  unfold cumulativeSpentPast
  rw [foldl_add_sum]
  simp

lemma sum_filter_and {f : Expense → ℚ} (p q : Expense → Bool) :
    ∀ l : List Expense, (∀ e ∈ l, p e = true → q e = false → f e = 0) →
      ((l.filter (fun e => p e && q e)).map f).sum = ((l.filter p).map f).sum := by
  intro l
  induction l with
  | nil => intro _; rfl
  | cons e rest ih =>
    intro h
    have hr := ih (fun x hx => h x (List.mem_cons_of_mem e hx))
    cases hp : p e with
    | false => simp [List.filter_cons, hp, hr]
    | true =>
      cases hq : q e with
      | true => simp [List.filter_cons, hp, hq, hr]
      | false =>
        simp [List.filter_cons, hp, hq, hr, h e (List.mem_cons_self e rest) hp hq]

lemma cumulativeSpentPast_spec (db : DB) (tripId : ℕ) (tstart d : ℤ) :
    cumulativeSpentPast db tripId tstart d =
      ((db.expenses.filter (fun e => e.tripId == tripId)).map
        (pastShareSpec tstart d)).sum := by
  rw [cumulativeSpentPast_eq_sum]
  have hmap : ∀ l : List Expense,
      (l.map (pastContribution tstart d)).sum = (l.map (pastShareSpec tstart d)).sum := by
    intro l
    have : pastContribution tstart d = pastShareSpec tstart d := by
      funext e
      exact pastContribution_eq_spec tstart d e
    rw [this]
  rw [hmap]
  unfold pastExpensesQuery
  refine sum_filter_and (fun e => e.tripId == tripId)
    (fun e =>
      (decide (e.startDate < d) ||
        (match e.endDate with
         | some en => decide (e.startDate < d) && decide (tstart ≤ en)
         | none => false)))
    db.expenses ?_
  intro e _ _ hq
  refine pastShareSpec_zero_of_late tstart d e ?_
  intro hlt
  simp only [Bool.or_eq_false_iff, decide_eq_false_iff_not] at hq
  exact hq.1 hlt

lemma statsFor_cumFields (db : DB) (tripId : ℕ) (trip : Trip) (d : ℤ) :
    ((statsFor db tripId trip d).cumulativeBudgetPast,
     (statsFor db tripId trip d).cumulativeSpentPast,
     (statsFor db tripId trip d).cumulativeSavingsPast) =
      if trip.startDate < d ∧ 0 < trip.dailyBudget.getD 0 then
        ((some ((trip.dailyBudget.getD 0) * ((d - trip.startDate : ℤ) : ℚ))),
         some (cumulativeSpentPast db tripId trip.startDate d),
         some ((trip.dailyBudget.getD 0) * ((d - trip.startDate : ℤ) : ℚ) -
           cumulativeSpentPast db tripId trip.startDate d))
      else (none, none, none) := by
  by_cases h : trip.startDate < d ∧ 0 < trip.dailyBudget.getD 0
  · simp only [statsFor, h, if_true]
  · simp only [statsFor, h, if_false]

/-- **C3.** When `target_date > trip.start_date` and `daily_budget > 0`,
the cumulative fields are `cumulative_budget_past = daily_budget *
(target - trip.start).days`, `cumulative_spent_past` = the sum over the
trip's expenses of the claim's formula (multi-day: even daily share times
`(min(end, target-1) - max(start, trip.start)).days + 1` when positive),
and `cumulative_savings_past` = their difference; when the precondition
fails all three fields are null, not zero. -/
theorem cumulative_past_statistics
    (db : DB) (tripId : ℕ) (d todayDate : ℤ) (trip : Trip)
    (hft : findTrip db tripId = some trip) :
    ((trip.startDate < d ∧ 0 < trip.dailyBudget.getD 0) →
      (getDailyBudgetStatistics db tripId (some d) todayDate).map
          (fun s => s.cumulativeBudgetPast) =
        .ok (some ((trip.dailyBudget.getD 0) * ((d - trip.startDate : ℤ) : ℚ))) ∧
      (getDailyBudgetStatistics db tripId (some d) todayDate).map
          (fun s => s.cumulativeSpentPast) =
        .ok (some (((db.expenses.filter (fun e => e.tripId == tripId)).map
          (pastShareSpec trip.startDate d)).sum)) ∧
      (getDailyBudgetStatistics db tripId (some d) todayDate).map
          (fun s => s.cumulativeSavingsPast) =
        .ok (some ((trip.dailyBudget.getD 0) * ((d - trip.startDate : ℤ) : ℚ) -
          ((db.expenses.filter (fun e => e.tripId == tripId)).map
            (pastShareSpec trip.startDate d)).sum))) ∧
    (¬(trip.startDate < d ∧ 0 < trip.dailyBudget.getD 0) →
      (getDailyBudgetStatistics db tripId (some d) todayDate).map
          (fun s => s.cumulativeBudgetPast) = .ok none ∧
      (getDailyBudgetStatistics db tripId (some d) todayDate).map
          (fun s => s.cumulativeSpentPast) = .ok none ∧
      (getDailyBudgetStatistics db tripId (some d) todayDate).map
          (fun s => s.cumulativeSavingsPast) = .ok none) := by
  have hcum := statsFor_cumFields db tripId trip d
  unfold getDailyBudgetStatistics
  rw [hft]
  simp only [Except.map, Option.getD_some, Except.ok.injEq]
  constructor
  · intro h
    rw [if_pos h] at hcum
    have h1 := congrArg Prod.fst hcum
    have h2 := congrArg (fun x => x.2.1) hcum
    have h3 := congrArg (fun x => x.2.2) hcum
    simp only at h1 h2 h3
    rw [cumulativeSpentPast_spec] at h2 h3
    exact ⟨h1, h2, h3⟩
  · intro h
    rw [if_neg h] at hcum
    have h1 := congrArg Prod.fst hcum
    have h2 := congrArg (fun x => x.2.1) hcum
    have h3 := congrArg (fun x => x.2.2) hcum
    simp only at h1 h2 h3
    exact ⟨h1, h2, h3⟩

/-- Witness for C3: the 3-day/3000 expense queried on day 4 — two thirds of
it (2000) fall strictly before the target date. -/
theorem cumulative_past_statistics_witness :
    (getDailyBudgetStatistics
        { trips := [{ id := 1, name := "T", currencyCode := cTHB, startDate := 0,
                      endDate := 9, totalBudget := some 10000, dailyBudget := some 1000 }],
          categories := [],
          expenses := [{ tripId := 1, categoryId := 1, userId := 1, title := "Hotel",
                         amount := 3000, currencyCode := cTHB, exchangeRate := 1,
                         amountInTripCurrency := 3000, startDate := 1, endDate := some 3 }],
          rates := [] } 1 (some 4) 9).map (fun s => s.cumulativeSpentPast) =
      .ok (some ((([({ tripId := 1, categoryId := 1, userId := 1, title := "Hotel",
                       amount := 3000, currencyCode := cTHB, exchangeRate := 1,
                       amountInTripCurrency := 3000, startDate := 1,
                       endDate := some 3 } : Expense)].filter
          (fun e => e.tripId == 1)).map (pastShareSpec 0 4)).sum)) :=
  ((cumulative_past_statistics
    { trips := [{ id := 1, name := "T", currencyCode := cTHB, startDate := 0,
                  endDate := 9, totalBudget := some 10000, dailyBudget := some 1000 }],
      categories := [],
      expenses := [{ tripId := 1, categoryId := 1, userId := 1, title := "Hotel",
                     amount := 3000, currencyCode := cTHB, exchangeRate := 1,
                     amountInTripCurrency := 3000, startDate := 1, endDate := some 3 }],
      rates := [] } 1 4 9
    { id := 1, name := "T", currencyCode := cTHB, startDate := 0, endDate := 9,
      totalBudget := some 10000, dailyBudget := some 1000 }
    (by decide)).1 (by constructor <;> decide)).2.1

lemma upsertCatEntry_mem {ents : List CatEntry} {ent x : CatEntry}
    (h : x ∈ upsertCatEntry ents ent) : x = ent ∨ x ∈ ents := by
  induction ents with
  | nil => simpa [upsertCatEntry] using h
  | cons y rest ih =>
    by_cases hy : (y.categoryId == ent.categoryId) = true
    · simp only [upsertCatEntry, hy, if_true, List.mem_cons] at h
      rcases h with h | h
      · exact Or.inl h
      · exact Or.inr (List.mem_cons_of_mem y h)
    · have hf : (y.categoryId == ent.categoryId) = false := by simpa using hy
      simp only [upsertCatEntry, hf, Bool.false_eq_true, if_false, List.mem_cons] at h
      rcases h with h | h
      · exact Or.inr (h ▸ List.mem_cons_self y rest)
      · rcases ih h with h2 | h2
        · exact Or.inl h2
        · exact Or.inr (List.mem_cons_of_mem y h2)

lemma initCatSpending_mem {b : ℚ} {cats : List Category} {ent : CatEntry}
    (h : ent ∈ initCatSpending b cats) : ∃ c ∈ cats, ent = initCatEntry b c := by
  have aux : ∀ (cs : List Category) (acc : List CatEntry),
      ent ∈ cs.foldl (fun acc c => upsertCatEntry acc (initCatEntry b c)) acc →
      ent ∈ acc ∨ ∃ c ∈ cs, ent = initCatEntry b c := by
    intro cs
    induction cs with
    | nil => intro acc h2; exact Or.inl h2
    | cons c rest ih =>
      intro acc h2
      rw [List.foldl_cons] at h2
      rcases ih _ h2 with h3 | h3
      · rcases upsertCatEntry_mem h3 with h4 | h4
        · exact Or.inr ⟨c, List.mem_cons_self c rest, h4⟩
        · exact Or.inl h4
      · rcases h3 with ⟨c2, hc2, he2⟩
        exact Or.inr ⟨c2, List.mem_cons_of_mem c hc2, he2⟩
  rcases aux cats [] h with h2 | h2
  · exact absurd h2 (List.not_mem_nil ent)
  · exact h2

lemma upsertCatEntry_ids (ents : List CatEntry) (ent : CatEntry) :
    (upsertCatEntry ents ent).map CatEntry.categoryId =
      if ent.categoryId ∈ ents.map CatEntry.categoryId then
        ents.map CatEntry.categoryId
      else ents.map CatEntry.categoryId ++ [ent.categoryId] := by
  induction ents with
  | nil => simp [upsertCatEntry]
  | cons y rest ih =>
    by_cases hy : (y.categoryId == ent.categoryId) = true
    · have he : y.categoryId = ent.categoryId := by simpa using hy
      simp [upsertCatEntry, hy, he]
    · have hf : (y.categoryId == ent.categoryId) = false := by simpa using hy
      have hne : ent.categoryId ≠ y.categoryId := by
        intro hc
        rw [hc] at hf
        simp at hf
      simp only [upsertCatEntry, hf, Bool.false_eq_true, if_false, List.map_cons, ih]
      by_cases hm : ent.categoryId ∈ rest.map CatEntry.categoryId
      · simp [hm, hne]
      · simp [hm, hne]

lemma initCatSpending_ids_nodup (b : ℚ) (cats : List Category) :
    ((initCatSpending b cats).map CatEntry.categoryId).Nodup := by
  have aux : ∀ (cs : List Category) (acc : List CatEntry),
      (acc.map CatEntry.categoryId).Nodup →
      ((cs.foldl (fun acc c => upsertCatEntry acc (initCatEntry b c)) acc).map
        CatEntry.categoryId).Nodup := by
    intro cs
    induction cs with
    | nil => intro acc h; exact h
    | cons c rest ih =>
      intro acc h
      rw [List.foldl_cons]
      refine ih _ ?_
      rw [upsertCatEntry_ids]
      by_cases hm : (initCatEntry b c).categoryId ∈ acc.map CatEntry.categoryId
      · simpa [hm] using h
      · simp only [hm, if_false]
        simp [List.nodup_append, h, hm]
  exact aux cats [] (by simp)

lemma mem_upsertCatEntry_ids_of_mem {k : ℕ} (ents : List CatEntry)
    (ent : CatEntry) (h : k ∈ ents.map CatEntry.categoryId) :
    k ∈ (upsertCatEntry ents ent).map CatEntry.categoryId := by
  rw [upsertCatEntry_ids]
  by_cases hm : ent.categoryId ∈ ents.map CatEntry.categoryId
  · simpa [hm] using h
  · simp only [hm, if_false]
    exact List.mem_append_left _ h

lemma initCatSpending_ids_mem (b : ℚ) (cats : List Category) (k : ℕ) :
    k ∈ (initCatSpending b cats).map CatEntry.categoryId ↔
      k ∈ cats.map Category.id := by
  constructor
  · intro h
    rcases List.mem_map.mp h with ⟨ent, hent, hk⟩
    rcases initCatSpending_mem hent with ⟨c, hc, he⟩
    have : ent.categoryId = c.id := by rw [he]; rfl
    rw [← hk, this]
    exact List.mem_map_of_mem Category.id hc
  · intro h
    have aux : ∀ (cs : List Category) (acc : List CatEntry),
        (k ∈ acc.map CatEntry.categoryId ∨ k ∈ cs.map Category.id) →
        k ∈ ((cs.foldl (fun acc c => upsertCatEntry acc (initCatEntry b c)) acc).map
          CatEntry.categoryId) := by
      intro cs
      induction cs with
      | nil =>
        intro acc h2
        rcases h2 with h2 | h2
        · exact h2
        · exact absurd h2 (by simp)
      | cons c rest ih =>
        intro acc h2
        rw [List.foldl_cons]
        refine ih _ ?_
        rcases h2 with h2 | h2
        · exact Or.inl (mem_upsertCatEntry_ids_of_mem acc (initCatEntry b c) h2)
        · rw [List.map_cons] at h2
          rcases List.mem_cons.mp h2 with h3 | h3
          · refine Or.inl ?_
            rw [upsertCatEntry_ids]
            have hcid : (initCatEntry b c).categoryId = c.id := rfl
            by_cases hm : (initCatEntry b c).categoryId ∈ acc.map CatEntry.categoryId
            · simp only [hm, if_true]
              rw [h3, ← hcid]
              exact hm
            · simp only [hm, if_false]
              refine List.mem_append_right _ ?_
              simp [hcid, h3]
          · exact Or.inr h3
    exact aux cats [] (Or.inr h)

lemma addToCategory_cons (x : CatEntry) (rest : List CatEntry) (cid : ℕ) (da : ℚ) :
    addToCategory (x :: rest) cid da =
      (if x.categoryId == cid then
        { x with totalSpent := x.totalSpent + da,
                 remainingBudget := x.categoryDailyBudget - (x.totalSpent + da) }
      else x) :: addToCategory rest cid da := rfl

lemma addToCategory_ids (ents : List CatEntry) (cid : ℕ) (da : ℚ) :
    (addToCategory ents cid da).map CatEntry.categoryId =
      ents.map CatEntry.categoryId := by
  induction ents with
  | nil => rfl
  | cons x rest ih =>
    rw [addToCategory_cons, List.map_cons, List.map_cons, ih]
    by_cases h : (x.categoryId == cid) = true <;> simp [h]

lemma addToCategory_invariant (ents : List CatEntry) (cid : ℕ) (da : ℚ)
    (h : ∀ x ∈ ents, x.remainingBudget = x.categoryDailyBudget - x.totalSpent) :
    ∀ x ∈ addToCategory ents cid da,
      x.remainingBudget = x.categoryDailyBudget - x.totalSpent := by
  intro x hx
  unfold addToCategory at hx
  rcases List.mem_map.mp hx with ⟨y, hy, he⟩
  by_cases hid : (y.categoryId == cid) = true
  · rw [← he]
    simp [hid]
  · rw [← he]
    simp only [hid, Bool.false_eq_true, if_false]
    exact h y hy

lemma addToCategory_of_not_mem (ents : List CatEntry) (cid : ℕ) (da : ℚ)
    (h : cid ∉ ents.map CatEntry.categoryId) :
    addToCategory ents cid da = ents := by
  induction ents with
  | nil => rfl
  | cons x rest ih =>
    simp only [List.map_cons, List.mem_cons, not_or] at h
    rw [addToCategory_cons, ih h.2]
    have hf : (x.categoryId == cid) = false := by
      simp only [beq_eq_false_iff_ne, ne_eq]
      exact fun hc => h.1 hc.symm
    rw [hf]
    simp

lemma addToCategory_sum (ents : List CatEntry) (cid : ℕ) (da : ℚ)
    (hnd : (ents.map CatEntry.categoryId).Nodup) :
    ((addToCategory ents cid da).map CatEntry.totalSpent).sum =
      (ents.map CatEntry.totalSpent).sum +
        (if cid ∈ ents.map CatEntry.categoryId then da else 0) := by
  induction ents with
  | nil => simp [addToCategory]
  | cons x rest ih =>
    rw [List.map_cons] at hnd
    have hnd2 : (rest.map CatEntry.categoryId).Nodup := (List.nodup_cons.mp hnd).2
    by_cases hid : (x.categoryId == cid) = true
    · have hcid : x.categoryId = cid := by simpa using hid
      have hnm : cid ∉ rest.map CatEntry.categoryId := by
        have h0 := (List.nodup_cons.mp hnd).1
        rw [hcid] at h0
        exact h0
      rw [addToCategory_cons, addToCategory_of_not_mem rest cid da hnm]
      simp only [hid, if_true, List.map_cons, List.sum_cons, List.mem_cons, hcid]
      simp
      ring
    · have hf : (x.categoryId == cid) = false := by simpa using hid
      have hne : cid ≠ x.categoryId := by
        intro hc
        rw [hc] at hf
        simp at hf
      rw [addToCategory_cons]
      simp only [hf, Bool.false_eq_true, if_false, List.map_cons, List.sum_cons,
        ih hnd2, List.mem_cons, hne, false_or]
      ring

/-- The category-bucket fold of the candidate-expense loop by itself. -/
def catLoop (es : List Expense) (ents : List CatEntry) : List CatEntry :=
  es.foldl (fun ents e => addToCategory ents e.categoryId (dailyShare e)) ents

lemma statsFor_byCategoryToday (db : DB) (tripId : ℕ) (trip : Trip) (d : ℤ) :
    (statsFor db tripId trip d).byCategoryToday =
      catLoop (expensesToday db tripId d)
        (initCatSpending (trip.dailyBudget.getD 0) (tripCategories db tripId)) := by
  have : (statsFor db tripId trip d).byCategoryToday =
      (runDayLoop d (initCatSpending (trip.dailyBudget.getD 0) (tripCategories db tripId))
        (expensesToday db tripId d)).entries := rfl
  rw [this]
  unfold runDayLoop catLoop
  rw [runDayLoop_entries_aux]

lemma catLoop_ids : ∀ (es : List Expense) (ents : List CatEntry),
    (catLoop es ents).map CatEntry.categoryId = ents.map CatEntry.categoryId := by
  intro es
  induction es with
  | nil => intro ents; rfl
  | cons e rest ih =>
    intro ents
    unfold catLoop
    rw [List.foldl_cons]
    have h1 := ih (addToCategory ents e.categoryId (dailyShare e))
    unfold catLoop at h1
    rw [h1, addToCategory_ids]

lemma catLoop_invariant : ∀ (es : List Expense) (ents : List CatEntry),
    (∀ x ∈ ents, x.remainingBudget = x.categoryDailyBudget - x.totalSpent) →
    ∀ x ∈ catLoop es ents,
      x.remainingBudget = x.categoryDailyBudget - x.totalSpent := by
  intro es
  induction es with
  | nil => intro ents h; exact h
  | cons e rest ih =>
    intro ents h
    unfold catLoop
    rw [List.foldl_cons]
    exact ih _ (addToCategory_invariant ents e.categoryId (dailyShare e) h)

lemma catLoop_sum : ∀ (es : List Expense) (ents : List CatEntry),
    (ents.map CatEntry.categoryId).Nodup →
    (∀ e ∈ es, e.categoryId ∈ ents.map CatEntry.categoryId) →
    ((catLoop es ents).map CatEntry.totalSpent).sum =
      (ents.map CatEntry.totalSpent).sum + (es.map dailyShare).sum := by
  intro es
  induction es with
  | nil => intro ents _ _; simp [catLoop]
  | cons e rest ih =>
    intro ents hnd hmem
    unfold catLoop
    rw [List.foldl_cons]
    have hids := addToCategory_ids ents e.categoryId (dailyShare e)
    have h1 := ih (addToCategory ents e.categoryId (dailyShare e))
      (by rw [hids]; exact hnd)
      (by
        intro x hx
        rw [hids]
        exact hmem x (List.mem_cons_of_mem e hx))
    unfold catLoop at h1
    rw [h1, addToCategory_sum ents e.categoryId (dailyShare e) hnd]
    rw [if_pos (hmem e (List.mem_cons_self e rest))]
    simp
    ring

lemma catLoop_skip : ∀ (es1 : List Expense) (e : Expense) (es2 : List Expense)
    (ents : List CatEntry), e.categoryId ∉ ents.map CatEntry.categoryId →
    catLoop (es1 ++ e :: es2) ents = catLoop (es1 ++ es2) ents := by
  intro es1
  induction es1 with
  | nil =>
    intro e es2 ents h
    unfold catLoop
    rw [List.nil_append, List.nil_append, List.foldl_cons,
      addToCategory_of_not_mem ents e.categoryId (dailyShare e) h]
  | cons x rest ih =>
    intro e es2 ents h
    unfold catLoop
    rw [List.cons_append, List.foldl_cons, List.cons_append, List.foldl_cons]
    have h2 := ih e es2 (addToCategory ents x.categoryId (dailyShare x))
      (by rw [addToCategory_ids]; exact h)
    unfold catLoop at h2
    exact h2

lemma initCatSpending_totalSpent_zero (b : ℚ) (cats : List Category) :
    ∀ ent ∈ initCatSpending b cats, ent.totalSpent = 0 := by
  intro ent hent
  rcases initCatSpending_mem hent with ⟨c, _, he⟩
  rw [he]
  rfl

lemma initCatSpending_sum_zero (b : ℚ) (cats : List Category) :
    ((initCatSpending b cats).map CatEntry.totalSpent).sum = 0 := by
  refine List.sum_eq_zero ?_
  intro v hv
  rcases List.mem_map.mp hv with ⟨ent, hent, he⟩
  rw [← he]
  exact initCatSpending_totalSpent_zero b cats ent hent

lemma initCatSpending_invariant (b : ℚ) (cats : List Category) :
    ∀ ent ∈ initCatSpending b cats,
      ent.remainingBudget = ent.categoryDailyBudget - ent.totalSpent := by
  intro ent hent
  rcases initCatSpending_mem hent with ⟨c, _, he⟩
  rw [he]
  simp [initCatEntry]

/-- **C9.** In `get_daily_budget_statistics`: when every candidate expense's
`category_id` is the id of one of the trip's categories, the sum of
`total_spent` over `by_category_today` equals `total_spent_today`; every
entry satisfies `remaining_budget = category_daily_budget - total_spent`;
and a candidate expense whose `category_id` is not among the trip's
categories leaves every category bucket untouched while still adding its
daily share to `total_spent_today`. -/
theorem daily_budget_category_buckets
    (db : DB) (tripId : ℕ) (d todayDate : ℤ) :
    ((∀ e ∈ expensesToday db tripId d,
        e.categoryId ∈ (tripCategories db tripId).map Category.id) →
      (getDailyBudgetStatistics db tripId (some d) todayDate).map
          (fun s => (s.byCategoryToday.map CatEntry.totalSpent).sum) =
        (getDailyBudgetStatistics db tripId (some d) todayDate).map
          (fun s => s.totalSpentToday)) ∧
    (∀ stats, getDailyBudgetStatistics db tripId (some d) todayDate = .ok stats →
      ∀ ent ∈ stats.byCategoryToday,
        ent.remainingBudget = ent.categoryDailyBudget - ent.totalSpent) ∧
    (∀ es1 e es2, db.expenses = es1 ++ e :: es2 →
      isCandidateToday tripId d e = true →
      e.categoryId ∉ (tripCategories db tripId).map Category.id →
      (getDailyBudgetStatistics db tripId (some d) todayDate).map
          (fun s => s.byCategoryToday) =
        (getDailyBudgetStatistics { db with expenses := es1 ++ es2 } tripId
            (some d) todayDate).map (fun s => s.byCategoryToday) ∧
      (getDailyBudgetStatistics db tripId (some d) todayDate).map
          (fun s => s.totalSpentToday) =
        (getDailyBudgetStatistics { db with expenses := es1 ++ es2 } tripId
            (some d) todayDate).map
          (fun s => s.totalSpentToday + dailyShare e)) := by
  cases hft : findTrip db tripId with
  | none =>
    refine ⟨?_, ?_, ?_⟩
    · intro _
      unfold getDailyBudgetStatistics
      rw [hft]
      rfl
    · intro stats hok
      unfold getDailyBudgetStatistics at hok
      rw [hft] at hok
      exact absurd hok (by simp)
    · intro es1 e es2 _ _ _
      have hft2 : findTrip { db with expenses := es1 ++ es2 } tripId = none := hft
      unfold getDailyBudgetStatistics
      rw [hft, hft2]
      exact ⟨rfl, rfl⟩
  | some trip =>
    have hb := statsFor_byCategoryToday db tripId trip d
    refine ⟨?_, ?_, ?_⟩
    · intro hmem
      unfold getDailyBudgetStatistics
      rw [hft]
      simp only [Except.map, Option.getD_some, Except.ok.injEq]
      rw [hb, statsFor_totalSpentToday]
      rw [catLoop_sum (expensesToday db tripId d) _
        (initCatSpending_ids_nodup _ _)
        (by
          intro e he
          rw [initCatSpending_ids_mem]
          exact hmem e he)]
      rw [initCatSpending_sum_zero]
      exact zero_add _
    · intro stats hok
      unfold getDailyBudgetStatistics at hok
      rw [hft] at hok
      simp only [Option.getD_some, Except.ok.injEq] at hok
      rw [← hok, hb]
      exact catLoop_invariant _ _ (initCatSpending_invariant _ _)
    · intro es1 e es2 hsplit hcand hnc
      have hft2 : findTrip { db with expenses := es1 ++ es2 } tripId = some trip := hft
      have hb2 := statsFor_byCategoryToday { db with expenses := es1 ++ es2 } tripId trip d
      have hsplitf : expensesToday db tripId d =
          es1.filter (isCandidateToday tripId d) ++
            e :: es2.filter (isCandidateToday tripId d) := by
        unfold expensesToday
        rw [hsplit]
        exact filter_split _ es1 es2 e hcand
      have hf2 : expensesToday { db with expenses := es1 ++ es2 } tripId d =
          es1.filter (isCandidateToday tripId d) ++ es2.filter (isCandidateToday tripId d) := by
        unfold expensesToday
        simp [List.filter_append]
      have hcats : tripCategories { db with expenses := es1 ++ es2 } tripId =
          tripCategories db tripId := rfl
      unfold getDailyBudgetStatistics
      rw [hft, hft2]
      simp only [Except.map, Option.getD_some, Except.ok.injEq]
      constructor
      · rw [hb, hb2, hcats, hsplitf, hf2]
        exact catLoop_skip _ e _ _
          (by
            rw [initCatSpending_ids_mem]
            exact hnc)
      · rw [statsFor_totalSpentToday, statsFor_totalSpentToday, hsplitf, hf2]
        simp only [List.map_append, List.sum_append, List.map_cons, List.sum_cons]
        ring

/-- Witness for C9: the spec's lunch scenario — the Food bucket's 300 equals
the day's total spend. -/
theorem daily_budget_category_buckets_witness :
    (getDailyBudgetStatistics
        { trips := [{ id := 1, name := "T", currencyCode := cTHB, startDate := 0,
                      endDate := 9, totalBudget := some 10000, dailyBudget := some 1000 }],
          categories := [{ id := 1, tripId := 1, name := "Food", color := "#abc",
                           icon := none, budgetPercentage := some 50 }],
          expenses := [{ tripId := 1, categoryId := 1, userId := 1, title := "Lunch",
                         amount := 300, currencyCode := cTHB, exchangeRate := 1,
                         amountInTripCurrency := 300, startDate := 2, endDate := none }],
          rates := [] } 1 (some 2) 9).map
        (fun s => (s.byCategoryToday.map CatEntry.totalSpent).sum) =
      (getDailyBudgetStatistics
        { trips := [{ id := 1, name := "T", currencyCode := cTHB, startDate := 0,
                      endDate := 9, totalBudget := some 10000, dailyBudget := some 1000 }],
          categories := [{ id := 1, tripId := 1, name := "Food", color := "#abc",
                           icon := none, budgetPercentage := some 50 }],
          expenses := [{ tripId := 1, categoryId := 1, userId := 1, title := "Lunch",
                         amount := 300, currencyCode := cTHB, exchangeRate := 1,
                         amountInTripCurrency := 300, startDate := 2, endDate := none }],
          rates := [] } 1 (some 2) 9).map (fun s => s.totalSpentToday) :=
  (daily_budget_category_buckets
    { trips := [{ id := 1, name := "T", currencyCode := cTHB, startDate := 0,
                  endDate := 9, totalBudget := some 10000, dailyBudget := some 1000 }],
      categories := [{ id := 1, tripId := 1, name := "Food", color := "#abc",
                       icon := none, budgetPercentage := some 50 }],
      expenses := [{ tripId := 1, categoryId := 1, userId := 1, title := "Lunch",
                     amount := 300, currencyCode := cTHB, exchangeRate := 1,
                     amountInTripCurrency := 300, startDate := 2, endDate := none }],
      rates := [] } 1 2 9).1 (by decide)

/-- The `ExpenseCreate` payload (schemas/expense.py), restricted to the
fields the create path reads. -/
structure ExpenseCreate where
  categoryId : ℕ
  title : String
  amount : ℚ
  currencyCode : String
  startDate : ℤ
  endDate : Option ℤ
deriving DecidableEq, Repr

/-- `db.query(Category).filter(Category.id == cid, Category.trip_id ==
trip_id).first()`. -/
def findCategory (db : DB) (cid tripId : ℕ) : Option Category :=
  db.categories.find? (fun c => c.id == cid && c.tripId == tripId)

/-- `expense_service.create_expense` (expense_service.py lines 15-101),
modelled faithfully *including its runtime flaw*: at line 63 the code runs
`rate = await currency_service.get_rate(...)`, but `CurrencyService.get_rate`
is a plain synchronous method returning `Decimal | None`, so `await` is
applied to a non-awaitable and Python raises
`TypeError: object ... can't be used in 'await' expression` before the
`if not rate:` check is reached. Every cross-currency create therefore
aborts with an unhandled `TypeError` (HTTP 500), whether or not a rate is
stored, and no expense row is persisted. Same-currency creates bypass the
call and succeed with a snapshot rate of 1. -/
def createExpense (db : DB) (tripId userId : ℕ) (x : ExpenseCreate) :
    Except ApiError (DB × Expense) :=
  match findTrip db tripId with
  | none => .error .notFound
  | some trip =>
    match findCategory db x.categoryId tripId with
    | none => .error .badRequest
    | some _ =>
      if x.currencyCode ≠ trip.currencyCode then
        .error .awaitTypeError
      else
        let e : Expense :=
          { tripId := tripId, categoryId := x.categoryId, userId := userId,
            title := x.title, amount := x.amount, currencyCode := x.currencyCode,
            exchangeRate := 1, amountInTripCurrency := x.amount,
            startDate := x.startDate, endDate := x.endDate }
        .ok ({ db with expenses := db.expenses ++ [e] }, e)

/-- **C6 (code bug).** The expense-create path used by the API can never
succeed for a cross-currency expense: at the failing input a `USD→THB`
rate (32) is stored and `get_rate` resolves it, yet `create_expense`
fails with the `await`-on-synchronous-`get_rate` `TypeError` instead of
persisting the converted expense; nothing is written. The same `TypeError`
(not the intended 400) is what a missing rate produces. -/
theorem create_expense_await_type_error :
    getRate [ExchangeRate.mk cUSD cTHB 32 5 0] cUSD cTHB (some 5) 5 =
      some 32 ∧
    createExpense
      { trips := [{ id := 1, name := "T", currencyCode := cTHB, startDate := 0,
                    endDate := 9, totalBudget := some 10000, dailyBudget := some 1000 }],
        categories := [{ id := 1, tripId := 1, name := "Food", color := "#abc",
                         icon := none, budgetPercentage := some 50 }],
        expenses := [],
        rates := [ExchangeRate.mk cUSD cTHB 32 5 0] } 1 1
      { categoryId := 1, title := "Taxi", amount := 100, currencyCode := cUSD,
        startDate := 5, endDate := none } = .error .awaitTypeError := by
  refine ⟨by decide, by rfl⟩

/-- The `TripCreate` payload (schemas/trip.py); budgets are optional and
validated only as `>= 0`, so an explicit 0 is allowed. -/
structure TripCreate where
  name : String
  startDate : ℤ
  endDate : ℤ
  currencyCode : String
  totalBudget : Option ℚ
  dailyBudget : Option ℚ
deriving DecidableEq, Repr

/-- Python truthiness of an optional Decimal as a Bool: `None` and `0` are
falsy. -/
def truthyBudget (x : Option ℚ) : Bool :=
  match x with
  | some v => v != 0
  | none => false

/-- `TripService.create_trip` (trip.py lines 95-148): date validation and
the budget derivation keyed on *truthiness* (`if trip_data.total_budget and
not trip_data.daily_budget:` — a zero budget is falsy). The owner/member
and default-category side effects do not touch the returned trip's fields
and are outside the model. -/
def createTrip (tc : TripCreate) (newId : ℕ) : Except ApiError Trip :=
  if tc.endDate < tc.startDate then .error .badRequest
  else
    let tripDays : ℤ := tc.endDate - tc.startDate + 1
    let budgets : Option ℚ × Option ℚ :=
      if truthyBudget tc.totalBudget ∧ ¬ truthyBudget tc.dailyBudget then
        (tc.totalBudget, some ((tc.totalBudget.getD 0) / (tripDays : ℚ)))
      else if truthyBudget tc.dailyBudget ∧ ¬ truthyBudget tc.totalBudget then
        (some ((tc.dailyBudget.getD 0) * (tripDays : ℚ)), tc.dailyBudget)
      else (tc.totalBudget, tc.dailyBudget)
    .ok { id := newId, name := tc.name, currencyCode := tc.currencyCode.toUpper,
          startDate := tc.startDate, endDate := tc.endDate,
          totalBudget := budgets.1, dailyBudget := budgets.2 }

/-- The `TripUpdate` payload: the outer `Option` is pydantic's set/unset
distinction (`model_dump(exclude_unset=True)`), the inner `Option` of the
budget fields is an explicitly supplied `null`. -/
structure TripUpdate where
  name : Option String
  startDate : Option ℤ
  endDate : Option ℤ
  currencyCode : Option String
  totalBudget : Option (Option ℚ)
  dailyBudget : Option (Option ℚ)
deriving DecidableEq, Repr

/-- `TripService.update_trip` (trip.py lines 150-198): date validation when
a date key is present, budget rederivation keyed on *key presence* (`if
"total_budget" in update_data and "daily_budget" not in update_data:`),
then field assignment (`currency_code` upper-cased when truthy). Supplying
exactly one budget key as an explicit `null` reaches `None / trip_days`
(resp. `None * trip_days`) and raises `TypeError`. Permission checks are
outside the model. -/
def updateTrip (trip : Trip) (u : TripUpdate) : Except ApiError Trip :=
  let startD := u.startDate.getD trip.startDate
  let endD := u.endDate.getD trip.endDate
  if (u.startDate.isSome || u.endDate.isSome) && decide (endD < startD) then
    .error .badRequest
  else
    let tripDays : ℤ := endD - startD + 1
    let budgets : Except ApiError (Option ℚ × Option ℚ) :=
      match u.totalBudget, u.dailyBudget with
      | some tb, none =>
        match tb with
        | some v => .ok (some v, some (v / (tripDays : ℚ)))
        | none => .error .typeError
      | none, some dbv =>
        match dbv with
        | some v => .ok (some (v * (tripDays : ℚ)), some v)
        | none => .error .typeError
      | some tb, some dbv => .ok (tb, dbv)
      | none, none => .ok (trip.totalBudget, trip.dailyBudget)
    match budgets with
    | .error err => .error err
    | .ok b =>
      .ok { trip with
        name := u.name.getD trip.name,
        startDate := startD, endDate := endD,
        currencyCode :=
          match u.currencyCode with
          | some c => if c != "" then c.toUpper else c
          | none => trip.currencyCode,
        totalBudget := b.1, dailyBudget := b.2 }

/-- **C8 (counterexample).** The claim fails for a zero budget: creating a
trip over a 14-day window with `total_budget = 0` (allowed by the schema's
`ge=0`) and no `daily_budget` leaves `daily_budget` null — the truthiness
guard `if trip_data.total_budget and not trip_data.daily_budget:` treats
`Decimal(0)` as absent — whereas the claim requires
`daily_budget = 0 / 14 = 0`. -/
theorem createTrip_zero_budget_counterexample :
    (createTrip
      { name := "T", startDate := 0, endDate := 13, currencyCode := cTHB,
        totalBudget := some 0, dailyBudget := none } 1).map
      (fun t => t.dailyBudget) = .ok none ∧
    some ((0 : ℚ) / 14) ≠ (none : Option ℚ) := by
  refine ⟨by rfl, by simp⟩

/-- **C8 (amended).** With only a *nonzero* `total_budget` supplied at
creation, `daily_budget = total_budget / trip_days`; with only a nonzero
`daily_budget`, `total_budget = daily_budget * trip_days`, where
`trip_days = (end - start).days + 1`. On update, setting exactly one of the
two keys to a non-null value recomputes the other by the same formulas
(zero allowed there — the update path tests key presence, not
truthiness). -/
theorem trip_budget_derivation :
    (∀ (tc : TripCreate) (newId : ℕ) (v : ℚ),
      tc.totalBudget = some v → v ≠ 0 → tc.dailyBudget = none →
      tc.startDate ≤ tc.endDate →
      (createTrip tc newId).map (fun t => (t.totalBudget, t.dailyBudget)) =
        .ok (some v, some (v / ((tc.endDate - tc.startDate + 1 : ℤ) : ℚ)))) ∧
    (∀ (tc : TripCreate) (newId : ℕ) (v : ℚ),
      tc.dailyBudget = some v → v ≠ 0 → tc.totalBudget = none →
      tc.startDate ≤ tc.endDate →
      (createTrip tc newId).map (fun t => (t.totalBudget, t.dailyBudget)) =
        .ok (some (v * ((tc.endDate - tc.startDate + 1 : ℤ) : ℚ)), some v)) ∧
    (∀ (trip : Trip) (u : TripUpdate) (v : ℚ),
      u.totalBudget = some (some v) → u.dailyBudget = none →
      u.startDate.getD trip.startDate ≤ u.endDate.getD trip.endDate →
      (updateTrip trip u).map (fun t => (t.totalBudget, t.dailyBudget)) =
        .ok (some v, some (v / ((u.endDate.getD trip.endDate -
          u.startDate.getD trip.startDate + 1 : ℤ) : ℚ)))) ∧
    (∀ (trip : Trip) (u : TripUpdate) (v : ℚ),
      u.dailyBudget = some (some v) → u.totalBudget = none →
      u.startDate.getD trip.startDate ≤ u.endDate.getD trip.endDate →
      (updateTrip trip u).map (fun t => (t.totalBudget, t.dailyBudget)) =
        .ok (some (v * ((u.endDate.getD trip.endDate -
          u.startDate.getD trip.startDate + 1 : ℤ) : ℚ)), some v)) := by
  refine ⟨?_, ?_, ?_, ?_⟩
  · intro tc newId v htb hv hdb hdates
    unfold createTrip
    rw [if_neg (by omega)]
    simp [htb, hdb, truthyBudget, hv, Except.map]
  · intro tc newId v hdb hv htb hdates
    unfold createTrip
    rw [if_neg (by omega)]
    simp [htb, hdb, truthyBudget, hv, Except.map]
  · intro trip u v htb hdb hdates
    unfold updateTrip
    rw [if_neg (by
      intro hcon
      simp only [Bool.and_eq_true, decide_eq_true_eq] at hcon
      omega)]
    rw [htb, hdb]
    simp [Except.map]
  · intro trip u v hdb htb hdates
    unfold updateTrip
    rw [if_neg (by
      intro hcon
      simp only [Bool.and_eq_true, decide_eq_true_eq] at hcon
      omega)]
    rw [htb, hdb]
    simp [Except.map]

/-- Witness for C8: the spec's round-trip — a 14-day trip created with only
`total_budget = 50000` gets `daily_budget = 50000 / 14`; updating only
`daily_budget` to 4000 recomputes `total_budget = 4000 * 14`. -/
theorem trip_budget_derivation_witness :
    (createTrip
      { name := "T", startDate := 0, endDate := 13, currencyCode := cTHB,
        totalBudget := some 50000, dailyBudget := none } 1).map
      (fun t => (t.totalBudget, t.dailyBudget)) =
      .ok (some 50000, some ((50000 : ℚ) / (((13 : ℤ) - 0 + 1 : ℤ) : ℚ))) ∧
    (updateTrip
      { id := 1, name := "T", currencyCode := cTHB, startDate := 0, endDate := 13,
        totalBudget := some 50000, dailyBudget := some (50000 / 14) }
      { name := none, startDate := none, endDate := none, currencyCode := none,
        totalBudget := none, dailyBudget := some (some 4000) }).map
      (fun t => (t.totalBudget, t.dailyBudget)) =
      .ok (some ((4000 : ℚ) * (((13 : ℤ) - 0 + 1 : ℤ) : ℚ)), some 4000) :=
  ⟨trip_budget_derivation.1
      { name := "T", startDate := 0, endDate := 13, currencyCode := cTHB,
        totalBudget := some 50000, dailyBudget := none } 1 50000
      rfl (by norm_num) rfl (by decide),
   trip_budget_derivation.2.2.2
      { id := 1, name := "T", currencyCode := cTHB, startDate := 0, endDate := 13,
        totalBudget := some 50000, dailyBudget := some (50000 / 14) }
      { name := none, startDate := none, endDate := none, currencyCode := none,
        totalBudget := none, dailyBudget := some (some 4000) } 4000
      rfl rfl (by decide)⟩

/-- `get_unique_trip_currencies` (currency.py lines 231-238): distinct trip
currency codes in first-appearance order, dropping falsy (empty) strings. -/
def uniqueTripCurrencies (db : DB) : List String :=
  ((db.trips.map Trip.currencyCode).eraseDups).filter (fun c => c != "")

/-- The outcome of one `await self.fetch_all_rates_for_currency(...)` as
seen from inside the loop's `try`: either the awaited step raises (any
exception reaching the `except Exception` handler) or it returns a
(possibly empty) rates dict — `fetch_all_rates_for_currency` itself maps
provider errors to `{}`. -/
inductive FetchOutcome where
  | raised
  | ok (rates : List (String × ℚ))
deriving DecidableEq, Repr

/-- One iteration of the base-currency loop of `update_all_rates`
(currency.py lines 270-289): the `try/except` converts an exception into an
error count and continues; an empty dict counts as an error; a nonempty
dict is saved via `save_rates_for_currency` and counts as a success.
State: `(store, success_count, error_count)`. -/
def updateStep (fetch : String → FetchOutcome) (today now : ℤ)
    (st : RateStore × ℕ × ℕ) (c : String) : RateStore × ℕ × ℕ :=
  match fetch c with
  | .raised => (st.1, st.2.1, st.2.2 + 1)
  | .ok rates =>
    if rates.isEmpty then (st.1, st.2.1, st.2.2 + 1)
    else (saveRatesForCurrency st.1 c rates today now, st.2.1 + 1, st.2.2)

/-- `CurrencyService.update_all_rates` (currency.py lines 240-294): when no
trip currencies exist the run returns immediately with no fetch and no
write; otherwise the loop processes every distinct trip currency. The
function is total — the per-currency `except Exception` means the job never
raises to its caller. -/
def updateAllRates (db : DB) (fetch : String → FetchOutcome) (today now : ℤ) :
    RateStore × ℕ × ℕ :=
  if uniqueTripCurrencies db = [] then (db.rates, 0, 0)
  else (uniqueTripCurrencies db).foldl (updateStep fetch today now) (db.rates, 0, 0)

lemma updateLoop_counts (fetch : String → FetchOutcome) (today now : ℤ) :
    ∀ (cs : List String) (s : RateStore) (sc ec : ℕ),
      cs.foldl (updateStep fetch today now) (s, sc, ec) =
        ((cs.foldl (updateStep fetch today now) (s, 0, 0)).1,
         sc + (cs.foldl (updateStep fetch today now) (s, 0, 0)).2.1,
         ec + (cs.foldl (updateStep fetch today now) (s, 0, 0)).2.2) := by
  intro cs
  induction cs with
  | nil => intro s sc ec; simp
  | cons c rest ih =>
    intro s sc ec
    rw [List.foldl_cons, List.foldl_cons]
    cases hf : fetch c with
    | raised =>
      simp only [updateStep, hf]
      rw [ih s sc (ec + 1), ih s 0 1]
      simp only [Nat.zero_add, Nat.add_assoc]
    | ok rates =>
      cases he : rates.isEmpty with
      | true =>
        simp only [updateStep, hf, he, if_true]
        rw [ih s sc (ec + 1), ih s 0 1]
        simp only [Nat.zero_add, Nat.add_assoc]
      | false =>
        simp only [updateStep, hf, he, Bool.false_eq_true, if_false]
        rw [ih (saveRatesForCurrency s c rates today now) (sc + 1) ec,
          ih (saveRatesForCurrency s c rates today now) 1 0]
        simp only [Nat.zero_add, Nat.add_assoc]

/-- **C7.** A failed fetch for one base currency — an exception reaching
the loop's `except` or an empty rates dict — does not affect what is
fetched and persisted for the other base currencies: the run's final store
and success count are exactly those of the run over the remaining
currencies, with one extra counted error; and when no trips exist the run
performs no fetches and no writes. The job itself is a total function —
the `except Exception` in the loop means it never raises to its caller. -/
theorem update_all_rates_error_isolation :
    (∀ (db : DB) (fetch : String → FetchOutcome) (today now : ℤ),
      uniqueTripCurrencies db = [] →
      updateAllRates db fetch today now = (db.rates, 0, 0)) ∧
    (∀ (db : DB) (fetch : String → FetchOutcome) (today now : ℤ)
      (cs1 cs2 : List String) (c : String),
      uniqueTripCurrencies db = cs1 ++ c :: cs2 →
      (fetch c = .raised ∨ fetch c = .ok []) →
      updateAllRates db fetch today now =
        (((cs1 ++ cs2).foldl (updateStep fetch today now) (db.rates, 0, 0)).1,
         ((cs1 ++ cs2).foldl (updateStep fetch today now) (db.rates, 0, 0)).2.1,
         ((cs1 ++ cs2).foldl (updateStep fetch today now) (db.rates, 0, 0)).2.2 + 1)) := by
  constructor
  · intro db fetch today now h
    unfold updateAllRates
    rw [if_pos h]
  · intro db fetch today now cs1 cs2 c hcs hfail
    have hne : uniqueTripCurrencies db ≠ [] := by
      rw [hcs]
      exact List.append_ne_nil_of_right_ne_nil cs1 (List.cons_ne_nil c cs2)
    unfold updateAllRates
    rw [if_neg hne, hcs]
    rw [List.foldl_append, List.foldl_append, List.foldl_cons]
    have hstep : ∀ st : RateStore × ℕ × ℕ,
        updateStep fetch today now st c = (st.1, st.2.1, st.2.2 + 1) := by
      intro st
      rcases hfail with h | h
      · simp [updateStep, h]
      · simp [updateStep, h]
    rw [hstep]
    set st1 := cs1.foldl (updateStep fetch today now) (db.rates, 0, 0) with hst1
    rw [updateLoop_counts fetch today now cs2 st1.1 st1.2.1 (st1.2.2 + 1),
      updateLoop_counts fetch today now cs2 st1.1 st1.2.1 st1.2.2]
    simp only [Prod.mk.injEq]
    refine ⟨trivial, trivial, by omega⟩

/-- Witness for C7: two trip currencies, the first fetch raising — the
second currency's rates are saved anyway and one error is counted. -/
theorem update_all_rates_error_isolation_witness :
    updateAllRates
      { trips := [{ id := 1, name := "A", currencyCode := cUSD, startDate := 0,
                    endDate := 1, totalBudget := none, dailyBudget := none },
                  { id := 2, name := "B", currencyCode := cEUR, startDate := 0,
                    endDate := 1, totalBudget := none, dailyBudget := none }],
        categories := [], expenses := [], rates := [] }
      (fun c => if c == cUSD then .raised else .ok [(cTHB, 3)]) 7 7 =
      (([cEUR].foldl
          (updateStep (fun c => if c == cUSD then .raised else .ok [(cTHB, 3)]) 7 7)
          ([], 0, 0)).1,
       ([cEUR].foldl
          (updateStep (fun c => if c == cUSD then .raised else .ok [(cTHB, 3)]) 7 7)
          ([], 0, 0)).2.1,
       ([cEUR].foldl
          (updateStep (fun c => if c == cUSD then .raised else .ok [(cTHB, 3)]) 7 7)
          ([], 0, 0)).2.2 + 1) :=
  update_all_rates_error_isolation.2
    { trips := [{ id := 1, name := "A", currencyCode := cUSD, startDate := 0,
                  endDate := 1, totalBudget := none, dailyBudget := none },
                { id := 2, name := "B", currencyCode := cEUR, startDate := 0,
                  endDate := 1, totalBudget := none, dailyBudget := none }],
      categories := [], expenses := [], rates := [] }
    (fun c => if c == cUSD then .raised else .ok [(cTHB, 3)]) 7 7
    [] [cEUR] cUSD (by decide) (Or.inl (by decide))
